import Mathlib

/-!
# mlbrot: the classic and ML Mandelbrot renderer

A shallow embedding of `main.go` and `ml/aws.go`.

* Go `float64` / `complex128` values are embedded as exact rationals (`ℚ`,
  `Cplx`); the untyped constants of `main.go` are exact in Go as well.
* Go `int` values are embedded as `Int`, loop counters as `Nat`.
* Package-level variables become the fields of `World`; every function that
  touches them takes and returns the `World` explicitly.
* The goroutines and the buffered channel `sem` are embedded as an interleaving
  transition system (`Sys`, `step`, `run`): this is the program. The functions
  `plotPixel`, `renderImage` and `main` describe one of its schedules, the one
  in which every goroutine runs to its end before the next is spawned
  (`renderImage_is_schedule`); the source does not enforce that schedule.
-/

namespace Mlbrot

/-! ## Values -/

/-- Embedding of `complex128` with exact rational components. -/
structure Cplx where
  re : ℚ
  im : ℚ
deriving DecidableEq

/-- Embedding of `color.RGBA` (four `uint8` channels). -/
structure RGBA where
  r : Nat
  g : Nat
  b : Nat
  a : Nat
deriving DecidableEq

/-- Embedding of `type testResult struct { C complex128; Color color.RGBA }`. -/
structure testResult where
  C : Cplx
  Color : RGBA
deriving DecidableEq

/-! ## Constants of `main.go` -/

abbrev bailoutIteration : Nat := 30
def radius : ℚ := 2
def radiusSquared : ℚ := radius * radius

def imHeight : Nat := 800
def imWidth : Nat := 800

def minRe : ℚ := -2
def maxRe : ℚ := 1
def minIm : ℚ := -12 / 10
def maxIm : ℚ := minIm + (maxRe - minRe) * (imHeight : ℚ) / (imWidth : ℚ)
def widthFactor : ℚ := (maxRe - minRe) / ((imWidth : ℚ) - 1)
def heightFactor : ℚ := (maxIm - minIm) / ((imHeight : ℚ) - 1)

def colorBlack : RGBA := ⟨255, 255, 255, 255⟩
def colorWhite : RGBA := ⟨0, 0, 0, 255⟩

def totalPixels : Nat := imHeight * imWidth

/-! ## The escape-time test -/

/-- Local `imC := maxIm - imag(c)*heightFactor` of `belongsToSet`. -/
def imC (c : Cplx) : ℚ := maxIm - c.im * heightFactor

/-- Local `reC := minRe + real(c)*widthFactor` of `belongsToSet`. -/
def reC (c : Cplx) : ℚ := minRe + c.re * widthFactor

/-- One pass through the update part of the loop body of `belongsToSet`:
`reNext`, `imNext` and the new `current`. -/
def nextCurrent (c current : Cplx) : Cplx :=
  let reNext := current.re ^ 2 - current.im ^ 2 + reC c
  let imNext := 2 * current.re * current.im + imC c
  ⟨reNext, imNext⟩

/-- The `for { ... }` loop of `belongsToSet`, entered with the given `current`
and `iterations`; the result is the value of `iterations` when the loop is
left through one of its two `break`s. -/
def belongsToSetLoop (c : Cplx) (current : Cplx) (iterations : Nat)
    (h : iterations ≤ bailoutIteration) : Nat :=
  if heq : iterations = bailoutIteration then
    iterations
  else if current.re ^ 2 + current.im ^ 2 > radiusSquared then
    iterations
  else
    belongsToSetLoop c (nextCurrent c current) (iterations + 1) (by omega)
termination_by bailoutIteration - iterations

/-- Embedding of `func belongsToSet(c complex128) bool`. -/
def belongsToSet (c : Cplx) : Bool :=
  let iterations := belongsToSetLoop c ⟨0, 0⟩ 0 (Nat.zero_le _)
  if iterations = bailoutIteration then false else true

/-! ### The orbit, stated mathematically

The iteration `z_0 = 0`, `z_{k+1} = z_k^2 + p` in exact complex arithmetic,
written from its mathematical statement and not from the code;
`nextCurrent_eq` below compares it with the loop body of `belongsToSet`. -/

/-- Product of two complex numbers. -/
def Cplx.mul (z w : Cplx) : Cplx := ⟨z.re * w.re - z.im * w.im, z.re * w.im + z.im * w.re⟩

/-- Sum of two complex numbers. -/
def Cplx.add (z w : Cplx) : Cplx := ⟨z.re + w.re, z.im + w.im⟩

/-- The point `p = (minRe + real(c)*widthFactor, maxIm - imag(c)*heightFactor)`
of the plane that the input `c` is mapped to. -/
def planePoint (c : Cplx) : Cplx := ⟨minRe + c.re * widthFactor, maxIm - c.im * heightFactor⟩

/-- The orbit `z_0 = 0`, `z_{k+1} = z_k^2 + p` of the mapped point `p` of `c`. -/
def orbit (c : Cplx) : Nat → Cplx
  | 0 => ⟨0, 0⟩
  | k + 1 => ((orbit c k).mul (orbit c k)).add (planePoint c)

/-- Squared magnitude `|z|^2` of a complex number. -/
def normSq (z : Cplx) : ℚ := z.re ^ 2 + z.im ^ 2

/-! ## The external predictor (`ml/aws.go`) -/

/-- The part of `machinelearning.Prediction` that `Predict` reads:
`PredictedLabel *string`. -/
structure Prediction where
  PredictedLabel : Option String

/-- The part of `machinelearning.PredictOutput` that `Predict` reads:
`Prediction *Prediction`. -/
structure PredictOutput where
  Prediction : Option Prediction

/-- The pair `(resp, err)` returned by the SDK call `svc.Predict(params)`;
`none` stands for a `nil` pointer, respectively a `nil` error. -/
structure PredictReply where
  resp : Option PredictOutput
  err : Option String

/-- Ways in which the embedded program stops without a result. -/
inductive Fault where
  /-- A Go run-time panic. -/
  | panic (msg : String)
  /-- A call of `log.Fatal`. -/
  | fatal (msg : String)
  /-- A channel operation that can never proceed. -/
  | blocked
deriving DecidableEq

/-- Embedding of `func Predict(svc, c) bool`: `svc` is the outcome of the
remote call as a function of the record sent. Dereferencing a `nil` pointer
panics. -/
def Predict (svc : Cplx → PredictReply) (c : Cplx) : Except Fault Bool :=
  let reply := svc c
  match reply.err with
  | some _ => .ok false
  | none =>
    match reply.resp with
    | none => .error (.panic "nil pointer dereference")
    | some resp =>
      match resp.Prediction with
      | none => .error (.panic "nil pointer dereference")
      | some prediction =>
        match prediction.PredictedLabel with
        | none => .error (.panic "nil pointer dereference")
        | some label => .ok (decide (label = "1"))

/-! ## Package-level state -/

/-- A line handed to `writer.WriteString`, before formatting: the header
`"real,imag,result\n"` or a record `Sprintf("%f,%f,%t\n", re, im, b)`. -/
inductive Line where
  | header
  | record (re im : ℚ) (result : Bool)
deriving DecidableEq

/-- Effects on the shared objects, recorded in the order they happen. -/
inductive Event where
  /-- The statement `sem <- true`. -/
  | semSend
  /-- The verdict `b` for `c` has been computed (`belongsToSet` or `ml.Predict` returned). -/
  | verdict (c : Cplx) (b : Bool)
  /-- A call of `writer.WriteString`. -/
  | logWrite (l : Line)
  /-- The statement `<-sem`. -/
  | semRecv
  /-- A call of `img.Set(x, y, col)`. -/
  | canvasSet (x y : Int) (col : RGBA)
deriving DecidableEq

/-- Command-line flags and the external service. -/
structure Config where
  coloringMethod : String
  concurrencyLevel : Int
  maxLinesToWrite : Int
  mlService : Cplx → PredictReply

/-- The mutable package-level variables of `main.go`. `img` is the pixel
buffer of the `*image.RGBA`, `writer` the lines written so far, `sem` the
number of values buffered in the channel, `events` the history of effects. -/
structure World where
  img : Int → Int → RGBA
  writer : List Line
  linesWritten : Int
  currentPixel : Nat
  sem : Nat
  events : List Event

/-- Value of every pixel of `image.NewRGBA(...)`. -/
def background : RGBA := ⟨0, 0, 0, 0⟩

/-- The package-level variables as initialised before `main` runs. -/
def World.init : World :=
  { img := fun _ _ => background
    writer := []
    linesWritten := 0
    currentPixel := 0
    sem := 0
    events := [] }

/-- Value of `cap(sem)` after `sem = make(chan bool, *concurrencyLevel)`. -/
def capSem (cfg : Config) : Nat := cfg.concurrencyLevel.toNat

/-- Conversion `int(x)` of a `float64`: truncation toward zero. -/
def goInt (q : ℚ) : Int := Int.tdiv q.num q.den

/-- Embedding of `(*image.RGBA).Set` on the image with bounds
`image.Rect(0, 0, imWidth, imHeight)`: points outside the bounds are ignored. -/
def imgSet (img : Int → Int → RGBA) (x y : Int) (col : RGBA) : Int → Int → RGBA :=
  if 0 ≤ x ∧ x < imWidth ∧ 0 ≤ y ∧ y < imHeight then
    fun x' y' => if x' = x ∧ y' = y then col else img x' y'
  else
    img

/-- Embedding of `func plot(c complex128, col color.RGBA)`. -/
def plot (c : Cplx) (col : RGBA) (w : World) : World :=
  let x := goInt c.re
  let y := goInt c.im
  { w with img := imgSet w.img x y col, events := w.events ++ [.canvasSet x y col] }

/-- The statement `sem <- true`: it proceeds when the buffer has room. -/
def semSend (cfg : Config) (w : World) : Except Fault World :=
  if w.sem < capSem cfg then
    .ok { w with sem := w.sem + 1, events := w.events ++ [.semSend] }
  else
    .error .blocked

/-- The statement `<-sem`: it proceeds when the buffer holds a value. -/
def semRecv (w : World) : Except Fault World :=
  if 0 < w.sem then
    .ok { w with sem := w.sem - 1, events := w.events ++ [.semRecv] }
  else
    .error .blocked

/-- Embedding of `func getColorFromClassicMandelbrot(c complex128) *testResult`. -/
def getColorFromClassicMandelbrot (cfg : Config) (c : Cplx) (w : World) : World × testResult :=
  let b := belongsToSet c
  let w := { w with events := w.events ++ [.verdict c b] }
  let w :=
    if cfg.maxLinesToWrite = -1 ∨ w.linesWritten < cfg.maxLinesToWrite then
      { w with
        writer := w.writer ++ [.record c.re c.im b]
        events := w.events ++ [.logWrite (.record c.re c.im b)]
        linesWritten := w.linesWritten + 1 }
    else
      w
  if b then
    (w, { C := c, Color := colorBlack })
  else
    (w, { C := c, Color := colorWhite })

/-- Embedding of `func getColorFromMLMandelbrot(c complex128) *testResult`. -/
def getColorFromMLMandelbrot (cfg : Config) (c : Cplx) (w : World) :
    Except Fault (World × testResult) := do
  let b ← Predict cfg.mlService c
  let w := { w with events := w.events ++ [.verdict c b] }
  if b then
    pure (w, { C := c, Color := colorBlack })
  else
    pure (w, { C := c, Color := colorWhite })

/-! ## One schedule: goroutines run to completion

The statement `go func(c complex128) {...}(c)` only starts a goroutine. The
functions of this section describe the schedule in which the goroutine runs
to its end before `plotPixel` returns. Other schedules are those of `run`
below; what holds here need not hold there. -/

/-- Body of the goroutine spawned by `plotPixel` under `case "classic"`. -/
def classicTask (cfg : Config) (c : Cplx) (w : World) : Except Fault World := do
  let (w, res) := getColorFromClassicMandelbrot cfg c w
  let w ← semRecv w
  pure (plot res.C res.Color w)

/-- Body of the goroutine spawned by `plotPixel` under `case "ml"`. -/
def mlTask (cfg : Config) (c : Cplx) (w : World) : Except Fault World := do
  let (w, res) ← getColorFromMLMandelbrot cfg c w
  let w ← semRecv w
  pure (plot res.C res.Color w)

/-- The function `plotPixel(c complex128)` in the schedule in which the
goroutine it spawns runs to completion before `plotPixel` returns; in the
source `plotPixel` returns right after the `go` statement. -/
def plotPixel (cfg : Config) (c : Cplx) (w : World) : Except Fault World := do
  let w ← semSend cfg w
  if cfg.coloringMethod = "ml" then
    mlTask cfg c w
  else if cfg.coloringMethod = "classic" then
    classicTask cfg c w
  else
    pure w

/-- A loop `for i := 0; i < n; i++ { body }` over the state. -/
def forLoop {σ : Type} (body : Nat → σ → Except Fault σ) : Nat → σ → Except Fault σ
  | 0, s => pure s
  | n + 1, s => do
    let s ← forLoop body n s
    body n s

/-- Body of the inner loop of `renderImage` for loop variables `i`, `j`:
`plotPixel(complex(float64(i), float64(j)))` and `currentPixel++`. -/
def scanPixel (cfg : Config) (i j : Nat) (w : World) : Except Fault World := do
  let w ← plotPixel cfg ⟨(i : ℚ), (j : ℚ)⟩ w
  pure { w with currentPixel := w.currentPixel + 1 }

/-- The inner loop `for j := 0; j < wd; j++` of `renderImage` in row `i`. -/
def scanRow (cfg : Config) (wd i : Nat) (w : World) : Except Fault World :=
  forLoop (fun j w => scanPixel cfg i j w) wd w

/-- The two nested loops of `renderImage` with bounds `h` and `wd`. -/
def scanLoops (cfg : Config) (h wd : Nat) (w : World) : Except Fault World :=
  forLoop (fun i w => scanRow cfg wd i w) h w

/-- The final loop of `renderImage`: `cap(sem)` sends. -/
def drainLoop (cfg : Config) (w : World) : Except Fault World :=
  forLoop (fun _ w => semSend cfg w) (capSem cfg) w

/-- The function `renderImage()` in the schedule in which every goroutine runs
to completion when spawned. `trackProgress` only prints. -/
def renderImage (cfg : Config) (w : World) : Except Fault World := do
  let w ← scanLoops cfg imHeight imWidth w
  drainLoop cfg w

/-- The statements of `func main()` before the call of `renderImage`;
`openErr` tells whether `openFile` returned an error (and a `nil` file). -/
def mainSetup (cfg : Config) (openErr : Bool) : Except Fault World := do
  if cfg.concurrencyLevel < 0 then
    throw (.panic "makechan: size out of range")
  let w := World.init
  if cfg.maxLinesToWrite > 0 ∨ cfg.maxLinesToWrite = -1 then
    if openErr then
      throw (.fatal "open")
    else
      pure { w with writer := w.writer ++ [Line.header],
                    events := w.events ++ [Event.logWrite Line.header] }
  else
    if openErr then
      throw (.panic "nil pointer dereference")
    else
      pure w

/-- The function `main()` up to the return of `renderImage`, in the schedule
in which every goroutine runs to completion when spawned. Flushing and
closing the file and encoding the image do not change the `World`. -/
def main (cfg : Config) (openErr : Bool) : Except Fault World := do
  let w ← mainSetup cfg openErr
  renderImage cfg w

/-- Number of calls `img.Set(x, y, _)` made so far. -/
def setCount (w : World) (x y : Int) : Nat :=
  w.events.countP (fun e =>
    match e with
    | .canvasSet x' y' _ => decide (x' = x ∧ y' = y)
    | _ => false)

/-- Relation between the state `w0` in which the scan starts and a later
state `t`: the lines written since are records, `linesWritten` counts
them, and their number is the number of pixels scanned since, cut off at the
cap unless the cap is `-1`. -/
def LogInv (cfg : Config) (w0 t : World) : Prop :=
  ∃ recs : List Line,
    t.writer = w0.writer ++ recs ∧ (∀ l ∈ recs, l ≠ Line.header)
    ∧ t.linesWritten = w0.linesWritten + (recs.length : Int)
    ∧ w0.currentPixel ≤ t.currentPixel
    ∧ recs.length =
        if cfg.maxLinesToWrite = -1 then t.currentPixel - w0.currentPixel
        else min (t.currentPixel - w0.currentPixel)
          (cfg.maxLinesToWrite - w0.linesWritten).toNat

/-! ## Goroutines interleaved

The same program with the goroutines as separate threads of control. One
step is one statement of `renderImage`/`plotPixel` run by the main goroutine,
or one of the three statements of a spawned goroutine. -/

/-- Position of a spawned goroutine in its body
`res := getColorFrom...(c); <-sem; plot(res.C, res.Color)`. -/
inductive TaskPc where
  /-- Spawned, `getColorFrom...` has not returned yet. -/
  | start
  /-- The result `res` is there, next is `<-sem`. -/
  | classified (res : testResult)
  /-- After `<-sem`, next is `plot`. -/
  | released (res : testResult)
  /-- The goroutine has ended. -/
  | done

/-- A spawned goroutine: its argument and its position. -/
structure Task where
  c : Cplx
  pc : TaskPc

/-- Position of the main goroutine inside `renderImage`. -/
inductive MainPc where
  /-- At `sem <- true` of `plotPixel` for loop variables `i`, `j`. -/
  | send (i j : Nat)
  /-- After that send, at the `switch` of `plotPixel`. -/
  | spawn (i j : Nat)
  /-- At `sem <- true` of the final loop, with loop variable `k`. -/
  | drain (k : Nat)
  /-- The function `renderImage` has returned. -/
  | returned
deriving DecidableEq

/-- The whole program state: shared variables, main goroutine, spawned
goroutines in spawn order, and whether a goroutine has panicked. -/
structure Sys where
  world : World
  mainPc : MainPc
  tasks : List Task
  panicked : Bool

/-- Which goroutine takes the next step. -/
inductive Action where
  | main
  | task (n : Nat)

/-- Head of the final loop `for i := 0; i < cap(sem); i++` with `i = k`. -/
def drainPc (cfg : Config) (k : Nat) : MainPc :=
  if k < capSem cfg then .drain k else .returned

/-- Head of the inner loop of `renderImage` with loop variables `i`, `j`: the
next statement the main goroutine blocks on. -/
def loopHead (cfg : Config) (i j : Nat) : MainPc :=
  if i < imHeight then
    if j < imWidth then .send i j
    else if i + 1 < imHeight ∧ 0 < imWidth then .send (i + 1) 0
    else drainPc cfg 0
  else drainPc cfg 0

/-- The state in which `renderImage` is entered with shared variables `w`. -/
def Sys.start (cfg : Config) (w : World) : Sys :=
  { world := w, mainPc := loopHead cfg 0 0, tasks := [], panicked := false }

/-- One step of the main goroutine; `none` when it is blocked or has returned. -/
def stepMain (cfg : Config) (s : Sys) : Option Sys :=
  match s.mainPc with
  | .send i j =>
    match semSend cfg s.world with
    | .ok w => some { s with world := w, mainPc := .spawn i j }
    | .error _ => none
  | .spawn i j =>
    let tasks :=
      if cfg.coloringMethod = "ml" ∨ cfg.coloringMethod = "classic" then
        s.tasks ++ [{ c := ⟨(i : ℚ), (j : ℚ)⟩, pc := .start }]
      else
        s.tasks
    some { s with
      tasks := tasks
      world := { s.world with currentPixel := s.world.currentPixel + 1 }
      mainPc := loopHead cfg i (j + 1) }
  | .drain k =>
    match semSend cfg s.world with
    | .ok w => some { s with world := w, mainPc := drainPc cfg (k + 1) }
    | .error _ => none
  | .returned => none

/-- One step of the `n`-th spawned goroutine; `none` when there is no such
goroutine, it is blocked or it has ended. -/
def stepTask (cfg : Config) (s : Sys) (n : Nat) : Option Sys :=
  match s.tasks[n]? with
  | none => none
  | some t =>
    match t.pc with
    | .start =>
      if cfg.coloringMethod = "ml" then
        match getColorFromMLMandelbrot cfg t.c s.world with
        | .ok (w, res) =>
          some { s with world := w, tasks := s.tasks.set n { t with pc := .classified res } }
        | .error _ => some { s with panicked := true }
      else
        let (w, res) := getColorFromClassicMandelbrot cfg t.c s.world
        some { s with world := w, tasks := s.tasks.set n { t with pc := .classified res } }
    | .classified res =>
      match semRecv s.world with
      | .ok w => some { s with world := w, tasks := s.tasks.set n { t with pc := .released res } }
      | .error _ => none
    | .released res =>
      some { s with
        world := plot res.C res.Color s.world
        tasks := s.tasks.set n { t with pc := .done } }
    | .done => none

/-- One step of the program; after a panic nothing runs. -/
def step (cfg : Config) (s : Sys) (a : Action) : Option Sys :=
  if s.panicked then none
  else
    match a with
    | .main => stepMain cfg s
    | .task n => stepTask cfg s n

/-- The state after the steps chosen by a schedule, when each is enabled. -/
def run (cfg : Config) : List Action → Sys → Option Sys
  | [], s => some s
  | a :: rest, s => (step cfg s a).bind (run cfg rest)

/-- A spawned goroutine holds a scheduling slot until it has executed `<-sem`. -/
def Task.holdsSlot (t : Task) : Bool :=
  match t.pc with
  | .start => true
  | .classified _ => true
  | .released _ => false
  | .done => false

/-- Number of spawned goroutines holding a scheduling slot. -/
def holding (s : Sys) : Nat := s.tasks.countP Task.holdsSlot

/-- Sends of the main goroutine that no spawned goroutine will match: the
send right before a spawn, and the sends of the final loop. -/
def unmatchedSends (cfg : Config) : MainPc → Nat
  | .send _ _ => 0
  | .spawn _ _ => 1
  | .drain k => k
  | .returned => capSem cfg

/-! ## Inputs used below -/

/-- The input whose mapped point is `0+0i`. -/
def cOrigin : Cplx := ⟨1598 / 3, 2397 / 5⟩

/-- The input whose mapped point is `2+2i`. -/
def cTwoTwo : Cplx := ⟨3196 / 3, -799 / 15⟩

/-- The input whose mapped point is `-2+0i`. -/
def cMinusTwo : Cplx := ⟨0, 2397 / 5⟩

/-- A predictor that always fails with a transport error. -/
def svcDown : Cplx → PredictReply := fun _ => { resp := none, err := some "timeout" }

/-- A predictor whose reply carries no error and no predicted label. -/
def svcNoLabel : Cplx → PredictReply :=
  fun _ => { resp := some { Prediction := some { PredictedLabel := none } }, err := none }

/-- A predictor whose reply carries no error and no prediction at all. -/
def svcNoPrediction : Cplx → PredictReply :=
  fun _ => { resp := some { Prediction := none }, err := none }

/-- A predictor that answers with the given label. -/
def svcLabel (label : String) : Cplx → PredictReply :=
  fun _ => { resp := some { Prediction := some { PredictedLabel := some label } }, err := none }

/-- The initial state with one value buffered in the channel, as a spawned
goroutine finds it. -/
def worldOneSlot : World := { World.init with sem := 1 }

/-- Flags `-method classic -c 20 -n N`. -/
def classicCfg (N : Int) : Config :=
  { coloringMethod := "classic", concurrencyLevel := 20, maxLinesToWrite := N,
    mlService := svcDown }

/-- Flags `-method ml -c 20 -n 0` with the given predictor. -/
def mlCfg (svc : Cplx → PredictReply) : Config :=
  { coloringMethod := "ml", concurrencyLevel := 20, maxLinesToWrite := 0, mlService := svc }


/-! ## The escape-time test: orbit characterisation -/

theorem radiusSquared_eq : radiusSquared = 4 := by
  norm_num [radiusSquared, radius]

theorem reC_eq (c : Cplx) : reC c = -2 + c.re * (3 / 799) := by
  norm_num [reC, minRe, maxRe, widthFactor, imWidth]

theorem imC_eq (c : Cplx) : imC c = 9 / 5 - c.im * (3 / 799) := by
  norm_num [imC, minIm, maxIm, minRe, maxRe, heightFactor, imWidth, imHeight]

/-- The loop body of `belongsToSet` squares the current iterate and adds the
mapped point of `c`. -/
theorem nextCurrent_eq (c z : Cplx) : nextCurrent c z = (z.mul z).add (planePoint c) := by
  simp only [nextCurrent, Cplx.mul, Cplx.add, planePoint, reC, imC]
  congr 1 <;> ring

theorem orbit_succ (c : Cplx) (k : Nat) : orbit c (k + 1) = nextCurrent c (orbit c k) := by
  rw [nextCurrent_eq]
  rfl

/-- The loop of `belongsToSet`, entered at the `n`-th iterate, runs to the
bailout count exactly when no iterate from the `n`-th to the 29th exceeds the
radius. -/
theorem belongsToSetLoop_orbit (c : Cplx) (n : Nat) (h : n ≤ bailoutIteration) :
    belongsToSetLoop c (orbit c n) n h = bailoutIteration ↔
      ∀ k, n ≤ k → k < bailoutIteration → normSq (orbit c k) ≤ radiusSquared := by
  generalize hd : bailoutIteration - n = d
  induction d generalizing n with
  | zero =>
    have hn : n = bailoutIteration := by omega
    unfold belongsToSetLoop
    rw [dif_pos hn]
    constructor
    · intro _ k h1 h2
      omega
    · intro _; exact hn
  | succ d ih =>
    have hn : n ≠ bailoutIteration := by omega
    unfold belongsToSetLoop
    rw [dif_neg hn]
    by_cases hgt : (orbit c n).re ^ 2 + (orbit c n).im ^ 2 > radiusSquared
    · rw [if_pos hgt]
      constructor
      · intro h1; exact absurd h1 hn
      · intro h1
        have := h1 n (le_refl _) (by omega)
        unfold normSq at this
        exact absurd hgt (not_lt.mpr this)
    · rw [if_neg hgt]
      have ih' := ih (n + 1) (by omega) (by omega)
      rw [← orbit_succ, ih']
      constructor
      · intro h1 k hk1 hk2
        rcases Nat.eq_or_lt_of_le hk1 with h2 | h2
        · subst h2
          exact not_lt.mp hgt
        · exact h1 k h2 hk2
      · intro h1 k hk1 hk2
        exact h1 k (by omega) hk2

/-- The function `belongsToSet` answers `false` exactly when the first thirty
iterates `z_0 .. z_29` all stay within the radius. -/
theorem belongsToSet_eq_false_iff (c : Cplx) :
    belongsToSet c = false ↔ ∀ k, k < bailoutIteration → normSq (orbit c k) ≤ 4 := by
  have h := belongsToSetLoop_orbit c 0 (Nat.zero_le _)
  rw [radiusSquared_eq] at h
  have horb : orbit c 0 = ⟨0, 0⟩ := rfl
  rw [horb] at h
  unfold belongsToSet
  constructor
  · intro hb k hk
    by_cases hl : belongsToSetLoop c ⟨0, 0⟩ 0 (Nat.zero_le _) = bailoutIteration
    · exact h.mp hl k (Nat.zero_le _) hk
    · simp [hl] at hb
  · intro hall
    have hl := h.mpr (fun k _ hk => hall k hk)
    simp [hl]

theorem belongsToSet_eq_true_iff (c : Cplx) :
    belongsToSet c = true ↔ ∃ k, 1 ≤ k ∧ k ≤ 29 ∧ 4 < normSq (orbit c k) := by
  constructor
  · intro hb
    by_contra hne
    have hf : belongsToSet c = false := by
      rw [belongsToSet_eq_false_iff]
      intro k hk
      rcases Nat.eq_zero_or_pos k with h0 | h0
      · subst h0
        norm_num [orbit, normSq]
      · by_contra hgt
        have hB : bailoutIteration = 30 := rfl
        exact hne ⟨k, h0, by omega, not_le.mp hgt⟩
    rw [hf] at hb
    exact Bool.noConfusion hb
  · rintro ⟨k, _, hk29, hgt⟩
    by_contra hb
    have hf : belongsToSet c = false := by simpa using hb
    have hB : bailoutIteration = 30 := rfl
    have := (belongsToSet_eq_false_iff c).mp hf k (by omega)
    exact absurd hgt (not_lt.mpr this)

theorem orbit_cOrigin (k : Nat) : orbit cOrigin k = ⟨0, 0⟩ := by
  induction k with
  | zero => rfl
  | succ k ih =>
    rw [orbit_succ, ih]
    simp only [nextCurrent, reC_eq, imC_eq, cOrigin]
    norm_num

theorem orbit_cTwoTwo_one : orbit cTwoTwo 1 = ⟨2, 2⟩ := by
  rw [orbit_succ]
  show nextCurrent cTwoTwo ⟨0, 0⟩ = _
  simp only [nextCurrent, reC_eq, imC_eq, cTwoTwo]
  norm_num

theorem orbit_cMinusTwo_one : orbit cMinusTwo 1 = ⟨-2, 0⟩ := by
  rw [orbit_succ]
  show nextCurrent cMinusTwo ⟨0, 0⟩ = _
  simp only [nextCurrent, reC_eq, imC_eq, cMinusTwo]
  norm_num

theorem orbit_cMinusTwo (k : Nat) : orbit cMinusTwo (k + 2) = ⟨2, 0⟩ := by
  induction k with
  | zero =>
    rw [orbit_succ, orbit_cMinusTwo_one]
    simp only [nextCurrent, reC_eq, imC_eq, cMinusTwo]
    norm_num
  | succ k ih =>
    rw [orbit_succ, ih]
    simp only [nextCurrent, reC_eq, imC_eq, cMinusTwo]
    norm_num

theorem normSq_orbit_cMinusTwo (k : Nat) (hk : 1 ≤ k) : normSq (orbit cMinusTwo k) = 4 := by
  rcases Nat.lt_or_ge k 2 with h | h
  · have : k = 1 := by omega
    subst this
    rw [orbit_cMinusTwo_one]
    norm_num [normSq]
  · obtain ⟨m, rfl⟩ : ∃ m, k = m + 2 := ⟨k - 2, by omega⟩
    rw [orbit_cMinusTwo]
    norm_num [normSq]

theorem orbit_pixel00_one : orbit ⟨0, 0⟩ 1 = ⟨-2, 9 / 5⟩ := by
  rw [orbit_succ]
  show nextCurrent ⟨0, 0⟩ ⟨0, 0⟩ = _
  simp only [nextCurrent, reC_eq, imC_eq]
  norm_num

theorem belongsToSet_pixel00 : belongsToSet ⟨0, 0⟩ = true := by
  rw [belongsToSet_eq_true_iff]
  refine ⟨1, le_refl _, by norm_num, ?_⟩
  rw [orbit_pixel00_one]
  norm_num [normSq]


/-! ## Loops and single pixels, goroutines run to completion -/

/-- Invariant rule for `forLoop`: an invariant indexed by the loop variable
that every iteration re-establishes holds when the loop ends, and the loop
does end. -/
theorem forLoop_inv {σ : Type} (body : Nat → σ → Except Fault σ) (P : Nat → σ → Prop)
    (n : Nat) (s : σ) (h0 : P 0 s)
    (hstep : ∀ i t, i < n → P i t → ∃ t', body i t = .ok t' ∧ P (i + 1) t') :
    ∃ t, forLoop body n s = .ok t ∧ P n t := by
  induction n with
  | zero => exact ⟨s, rfl, h0⟩
  | succ n ih =>
    obtain ⟨t, ht, hP⟩ := ih (fun i t hi hp => hstep i t (Nat.lt_succ_of_lt hi) hp)
    obtain ⟨t', ht', hP'⟩ := hstep n t (Nat.lt_succ_self n) hP
    refine ⟨t', ?_, hP'⟩
    show (forLoop body n s >>= fun s => body n s) = _
    rw [ht]
    exact ht'

theorem goInt_natCast (i : Nat) : goInt (i : ℚ) = (i : Int) := by
  simp [goInt]

theorem getColorFromClassicMandelbrot_snd (cfg : Config) (c : Cplx) (w : World) :
    (getColorFromClassicMandelbrot cfg c w).2
      = { C := c, Color := if belongsToSet c then colorBlack else colorWhite } := by
  unfold getColorFromClassicMandelbrot
  by_cases hb : belongsToSet c = true <;> simp [hb]

theorem getColorFromClassicMandelbrot_fst (cfg : Config) (c : Cplx) (w : World) :
    (getColorFromClassicMandelbrot cfg c w).1
      = if cfg.maxLinesToWrite = -1 ∨ w.linesWritten < cfg.maxLinesToWrite then
          { w with
            writer := w.writer ++ [.record c.re c.im (belongsToSet c)]
            events := w.events ++ [.verdict c (belongsToSet c)]
              ++ [.logWrite (.record c.re c.im (belongsToSet c))]
            linesWritten := w.linesWritten + 1 }
        else
          { w with events := w.events ++ [.verdict c (belongsToSet c)] } := by
  unfold getColorFromClassicMandelbrot
  by_cases hb : belongsToSet c = true <;>
  by_cases hlog : cfg.maxLinesToWrite = -1 ∨ w.linesWritten < cfg.maxLinesToWrite <;>
  simp [hb, hlog]

theorem classicTask_eq (cfg : Config) (c : Cplx) (w : World) (hs : 0 < w.sem) :
    classicTask cfg c w
      = .ok (plot c (if belongsToSet c then colorBlack else colorWhite)
          { (getColorFromClassicMandelbrot cfg c w).1 with
            sem := w.sem - 1
            events := (getColorFromClassicMandelbrot cfg c w).1.events ++ [.semRecv] }) := by
  have hsem : (getColorFromClassicMandelbrot cfg c w).1.sem = w.sem := by
    rw [getColorFromClassicMandelbrot_fst]
    split <;> rfl
  have hres := getColorFromClassicMandelbrot_snd cfg c w
  unfold classicTask
  generalize getColorFromClassicMandelbrot cfg c w = p at hsem hres
  obtain ⟨w1, res⟩ := p
  simp only at hsem hres
  subst hres
  simp [semRecv, hsem, hs, bind, Except.bind, pure, Except.pure]

theorem plotPixel_classic (cfg : Config) (hm : cfg.coloringMethod = "classic")
    (c : Cplx) (w : World) (hs : w.sem < capSem cfg) :
    plotPixel cfg c w
      = classicTask cfg c { w with sem := w.sem + 1, events := w.events ++ [.semSend] } := by
  have hml : ¬ (cfg.coloringMethod = "ml") := by rw [hm]; decide
  unfold plotPixel
  simp only [semSend, hs, if_true, bind, Except.bind, if_neg hml, if_pos hm]

/-- The effect of one pass through the inner loop body of `renderImage` in
classic mode, when the channel has room. -/
theorem scanPixel_classic (cfg : Config) (hm : cfg.coloringMethod = "classic")
    (i j : Nat) (w : World) (hs : w.sem < capSem cfg) :
    ∃ w', scanPixel cfg i j w = .ok w' ∧ w'.sem = w.sem
      ∧ w'.img = imgSet w.img i j
          (if belongsToSet ⟨(i : ℚ), (j : ℚ)⟩ then colorBlack else colorWhite)
      ∧ (∀ x y : Int, setCount w' x y = setCount w x y + if x = i ∧ y = j then 1 else 0)
      ∧ w'.currentPixel = w.currentPixel + 1
      ∧ ((cfg.maxLinesToWrite = -1 ∨ w.linesWritten < cfg.maxLinesToWrite) →
          w'.writer = w.writer ++ [.record i j (belongsToSet ⟨(i : ℚ), (j : ℚ)⟩)]
          ∧ w'.linesWritten = w.linesWritten + 1)
      ∧ (¬ (cfg.maxLinesToWrite = -1 ∨ w.linesWritten < cfg.maxLinesToWrite) →
          w'.writer = w.writer ∧ w'.linesWritten = w.linesWritten) := by
  unfold scanPixel
  rw [plotPixel_classic cfg hm _ w hs, classicTask_eq cfg _ _ (Nat.succ_pos _),
    getColorFromClassicMandelbrot_fst]
  by_cases hlog : cfg.maxLinesToWrite = -1 ∨ w.linesWritten < cfg.maxLinesToWrite
  · simp [hlog, plot, bind, Except.bind, pure, Except.pure, goInt_natCast, setCount,
      List.countP_append, List.countP_cons]
    intro x y
    have e : ((i : Int) = x ∧ (j : Int) = y) ↔ (x = i ∧ y = j) := by
      constructor <;> rintro ⟨a, b⟩ <;> exact ⟨a.symm, b.symm⟩
    simp only [e]
  · simp [hlog, plot, bind, Except.bind, pure, Except.pure, goInt_natCast, setCount,
      List.countP_append, List.countP_cons]
    intro x y
    have e : ((i : Int) = x ∧ (j : Int) = y) ↔ (x = i ∧ y = j) := by
      constructor <;> rintro ⟨a, b⟩ <;> exact ⟨a.symm, b.symm⟩
    simp only [e]

theorem imgSet_apply (img : Int → Int → RGBA) (x y : Int) (col : RGBA) (x' y' : Int) :
    imgSet img x y col x' y'
      = if (0 ≤ x ∧ x < imWidth ∧ 0 ≤ y ∧ y < imHeight) ∧ x' = x ∧ y' = y then col
        else img x' y' := by
  unfold imgSet
  by_cases h : 0 ≤ x ∧ x < imWidth ∧ 0 ≤ y ∧ y < imHeight
  · simp [h]
  · simp [h]

theorem LogInv_refl (cfg : Config) (w0 : World) : LogInv cfg w0 w0 := by
  refine ⟨[], by simp, by simp, by simp, le_refl _, ?_⟩
  split <;> simp

/-- One scanned pixel in classic mode keeps the log relation. -/
theorem LogInv_step (cfg : Config) (w0 t t' : World) (hL : LogInv cfg w0 t)
    (r : Line) (hr : r ≠ Line.header)
    (hcp : t'.currentPixel = t.currentPixel + 1)
    (hyes : (cfg.maxLinesToWrite = -1 ∨ t.linesWritten < cfg.maxLinesToWrite) →
      t'.writer = t.writer ++ [r] ∧ t'.linesWritten = t.linesWritten + 1)
    (hno : ¬ (cfg.maxLinesToWrite = -1 ∨ t.linesWritten < cfg.maxLinesToWrite) →
      t'.writer = t.writer ∧ t'.linesWritten = t.linesWritten) :
    LogInv cfg w0 t' := by
  obtain ⟨recs, hw, hrec, hlw, hle, hlen⟩ := hL
  by_cases hlog : cfg.maxLinesToWrite = -1 ∨ t.linesWritten < cfg.maxLinesToWrite
  · obtain ⟨h1, h2⟩ := hyes hlog
    refine ⟨recs ++ [r], ?_, ?_, ?_, by omega, ?_⟩
    · rw [h1, hw, List.append_assoc]
    · intro l hl
      rcases List.mem_append.mp hl with h | h
      · exact hrec l h
      · rw [List.mem_singleton.mp h]; exact hr
    · rw [h2, hlw]; simp; ring
    · rw [List.length_append, List.length_singleton, hcp]
      by_cases hm1 : cfg.maxLinesToWrite = -1
      · rw [if_pos hm1] at hlen ⊢; omega
      · rw [if_neg hm1] at hlen ⊢
        have hlt : t.linesWritten < cfg.maxLinesToWrite := hlog.resolve_left hm1
        omega
  · obtain ⟨h1, h2⟩ := hno hlog
    have hm1 : ¬ cfg.maxLinesToWrite = -1 := fun h => hlog (Or.inl h)
    have hge : ¬ t.linesWritten < cfg.maxLinesToWrite := fun h => hlog (Or.inr h)
    refine ⟨recs, by rw [h1, hw], hrec, by rw [h2, hlw], by omega, ?_⟩
    rw [if_neg hm1] at hlen ⊢
    rw [hcp]
    omega

theorem ite_update {α : Type} (A B B' : Prop) [Decidable A] [Decidable B] [Decidable B']
    (a b c : α) (h1 : A → B' ∧ a = b) (h2 : ¬ A → (B ↔ B')) :
    (if A then a else if B then b else c) = if B' then b else c := by
  by_cases hA : A
  · obtain ⟨hB', hab⟩ := h1 hA
    rw [if_pos hA, if_pos hB', hab]
  · rw [if_neg hA]
    by_cases hB : B
    · rw [if_pos hB, if_pos ((h2 hA).mp hB)]
    · rw [if_neg hB, if_neg (fun h => hB ((h2 hA).mpr h))]

theorem count_update (A B B' : Prop) [Decidable A] [Decidable B] [Decidable B']
    (h1 : A → ¬ B ∧ B') (h2 : ¬ A → (B ↔ B')) :
    ((if B then 1 else 0) + if A then 1 else 0) = if B' then 1 else 0 := by
  by_cases hA : A
  · obtain ⟨hB, hB'⟩ := h1 hA
    rw [if_pos hA, if_neg hB, if_pos hB']
  · rw [if_neg hA]
    by_cases hB : B
    · rw [if_pos hB, if_pos ((h2 hA).mp hB)]
    · rw [if_neg hB, if_neg (fun h => hB ((h2 hA).mpr h))]

/-- The inner loop of `renderImage` in classic mode: it ends, leaves the
channel as it was, has called `img.Set` once for every cell `(i, y)` with
`y < wd`, and has coloured those inside the image bounds by the verdict. -/
theorem scanRow_classic (cfg : Config) (hm : cfg.coloringMethod = "classic")
    (w0 : World) (wd i : Nat) (w : World) (hs : w.sem < capSem cfg) (hL : LogInv cfg w0 w) :
    ∃ t, scanRow cfg wd i w = .ok t ∧ t.sem = w.sem
      ∧ (∀ x y : Int, t.img x y =
          if (x = i ∧ 0 ≤ y ∧ y < wd) ∧ (0 ≤ x ∧ x < imWidth ∧ 0 ≤ y ∧ y < imHeight) then
            (if belongsToSet ⟨(x : ℚ), (y : ℚ)⟩ then colorBlack else colorWhite)
          else w.img x y)
      ∧ (∀ x y : Int, setCount t x y
          = setCount w x y + if x = i ∧ 0 ≤ y ∧ y < wd then 1 else 0)
      ∧ t.currentPixel = w.currentPixel + wd
      ∧ LogInv cfg w0 t := by
  unfold scanRow
  refine forLoop_inv (fun j w => scanPixel cfg i j w)
    (fun n t => t.sem = w.sem
      ∧ (∀ x y : Int, t.img x y =
          if (x = i ∧ 0 ≤ y ∧ y < n) ∧ (0 ≤ x ∧ x < imWidth ∧ 0 ≤ y ∧ y < imHeight) then
            (if belongsToSet ⟨(x : ℚ), (y : ℚ)⟩ then colorBlack else colorWhite)
          else w.img x y)
      ∧ (∀ x y : Int, setCount t x y
          = setCount w x y + if x = i ∧ 0 ≤ y ∧ y < n then 1 else 0)
      ∧ t.currentPixel = w.currentPixel + n
      ∧ LogInv cfg w0 t) wd w ?_ ?_
  · refine ⟨rfl, ?_, ?_, rfl, hL⟩
    · intro x y
      rw [if_neg]
      rintro ⟨⟨_, h1, h2⟩, _⟩
      have : ((0 : Nat) : Int) = 0 := rfl
      omega
    · intro x y
      rw [if_neg]
      · rfl
      · rintro ⟨_, h1, h2⟩
        have : ((0 : Nat) : Int) = 0 := rfl
        omega
  · rintro j t _ ⟨hsem, himg, hcnt, hcp, hLt⟩
    obtain ⟨t', hrun, hsem', himg', hcnt', hcp', hyes, hno⟩ :=
      scanPixel_classic cfg hm i j t (by rw [hsem]; exact hs)
    refine ⟨t', hrun, by rw [hsem', hsem], ?_, ?_, by rw [hcp', hcp]; ring, ?_⟩
    · intro x y
      rw [himg', imgSet_apply, himg]
      apply ite_update
      · rintro ⟨hin, hx, hy⟩
        subst hx hy
        refine ⟨⟨⟨rfl, by omega, by push_cast; omega⟩, hin⟩, ?_⟩
        simp
      · intro hA
        constructor
        · rintro ⟨⟨h1, h2, h3⟩, h4⟩
          exact ⟨⟨h1, h2, by push_cast; omega⟩, h4⟩
        · rintro ⟨⟨h1, h2, h3⟩, h4⟩
          refine ⟨⟨h1, h2, ?_⟩, h4⟩
          have hy : y ≠ j := fun hy => hA ⟨by rw [← h1, ← hy]; exact h4, h1, hy⟩
          push_cast at h3
          omega
    · intro x y
      rw [hcnt', hcnt, Nat.add_assoc]
      congr 1
      apply count_update
      · rintro ⟨hx, hy⟩
        refine ⟨?_, hx, by omega, by push_cast; omega⟩
        rintro ⟨_, _, h⟩
        omega
      · intro hA
        constructor
        · rintro ⟨h1, h2, h3⟩
          exact ⟨h1, h2, by push_cast; omega⟩
        · rintro ⟨h1, h2, h3⟩
          refine ⟨h1, h2, ?_⟩
          have hy : y ≠ j := fun hy => hA ⟨h1, hy⟩
          push_cast at h3
          omega
    · exact LogInv_step cfg w0 t t' hLt _ (by simp) hcp' hyes hno

theorem ite_extend {α : Type} (A B B' : Prop) [Decidable A] [Decidable B] [Decidable B']
    (b c : α) (h2 : B' ↔ (A ∨ B)) :
    (if A then b else if B then b else c) = if B' then b else c := by
  by_cases hA : A
  · rw [if_pos hA, if_pos (h2.mpr (Or.inl hA))]
  · rw [if_neg hA]
    by_cases hB : B
    · rw [if_pos hB, if_pos (h2.mpr (Or.inr hB))]
    · rw [if_neg hB, if_neg (fun h => (h2.mp h).elim hA hB)]

/-- The two nested loops of `renderImage` in classic mode, with bounds `h`
and `wd`, started with room in the channel. -/
theorem scanLoops_classic (cfg : Config) (hm : cfg.coloringMethod = "classic")
    (h wd : Nat) (w : World) (hs : w.sem < capSem cfg) :
    ∃ t, scanLoops cfg h wd w = .ok t ∧ t.sem = w.sem
      ∧ (∀ x y : Int, t.img x y =
          if (0 ≤ x ∧ x < h ∧ 0 ≤ y ∧ y < wd) ∧ (0 ≤ x ∧ x < imWidth ∧ 0 ≤ y ∧ y < imHeight) then
            (if belongsToSet ⟨(x : ℚ), (y : ℚ)⟩ then colorBlack else colorWhite)
          else w.img x y)
      ∧ (∀ x y : Int, setCount t x y
          = setCount w x y + if 0 ≤ x ∧ x < h ∧ 0 ≤ y ∧ y < wd then 1 else 0)
      ∧ t.currentPixel = w.currentPixel + h * wd
      ∧ LogInv cfg w t := by
  unfold scanLoops
  refine forLoop_inv (fun i w => scanRow cfg wd i w)
    (fun n t => t.sem = w.sem
      ∧ (∀ x y : Int, t.img x y =
          if (0 ≤ x ∧ x < n ∧ 0 ≤ y ∧ y < wd) ∧ (0 ≤ x ∧ x < imWidth ∧ 0 ≤ y ∧ y < imHeight) then
            (if belongsToSet ⟨(x : ℚ), (y : ℚ)⟩ then colorBlack else colorWhite)
          else w.img x y)
      ∧ (∀ x y : Int, setCount t x y
          = setCount w x y + if 0 ≤ x ∧ x < n ∧ 0 ≤ y ∧ y < wd then 1 else 0)
      ∧ t.currentPixel = w.currentPixel + n * wd
      ∧ LogInv cfg w t) h w ?_ ?_
  · refine ⟨rfl, ?_, ?_, by simp, LogInv_refl cfg w⟩
    · intro x y
      rw [if_neg]
      rintro ⟨⟨h1, h2, _⟩, _⟩
      have : ((0 : Nat) : Int) = 0 := rfl
      omega
    · intro x y
      rw [if_neg]
      · rfl
      · rintro ⟨h1, h2, _⟩
        have : ((0 : Nat) : Int) = 0 := rfl
        omega
  · rintro i t _ ⟨hsem, himg, hcnt, hcp, hLt⟩
    obtain ⟨t', hrun, hsem', himg', hcnt', hcp', hLt'⟩ :=
      scanRow_classic cfg hm w wd i t (by rw [hsem]; exact hs) hLt
    refine ⟨t', hrun, by rw [hsem', hsem], ?_, ?_, by rw [hcp', hcp, Nat.succ_mul]; ring, hLt'⟩
    · intro x y
      rw [himg', himg]
      apply ite_extend
      · constructor
        · rintro ⟨⟨h1, h2, h3⟩, h4⟩
          push_cast at h2
          by_cases hx : x = i
          · exact Or.inl ⟨⟨hx, h3⟩, h4⟩
          · exact Or.inr ⟨⟨h1, by omega, h3⟩, h4⟩
        · rintro (⟨⟨_, h2⟩, h3⟩ | ⟨⟨h1, h2, h3⟩, h4⟩)
          · exact ⟨⟨h3.1, by push_cast; omega, h2⟩, h3⟩
          · exact ⟨⟨h1, by push_cast; omega, h3⟩, h4⟩
    · intro x y
      rw [hcnt', hcnt, Nat.add_assoc]
      congr 1
      apply count_update
      · rintro ⟨hx, h2⟩
        refine ⟨?_, by omega, by push_cast; omega, h2⟩
        rintro ⟨_, h, _⟩
        omega
      · intro hA
        constructor
        · rintro ⟨h1, h2, h3⟩
          exact ⟨h1, by push_cast; omega, h3⟩
        · rintro ⟨h1, h2, h3⟩
          refine ⟨h1, ?_, h3⟩
          have hx : x ≠ i := fun hx => hA ⟨hx, h3⟩
          push_cast at h2
          omega

/-- The final loop of `renderImage`, entered with an empty channel: it ends
with the channel full and changes nothing else that is observed. -/
theorem drainLoop_empty (cfg : Config) (w : World) (hs : w.sem = 0) :
    ∃ t, drainLoop cfg w = .ok t ∧ t.sem = capSem cfg ∧ t.img = w.img
      ∧ t.writer = w.writer ∧ t.linesWritten = w.linesWritten
      ∧ t.currentPixel = w.currentPixel
      ∧ (∀ x y : Int, setCount t x y = setCount w x y) := by
  unfold drainLoop
  refine forLoop_inv (fun _ w => semSend cfg w)
    (fun k t => t.sem = k ∧ t.img = w.img ∧ t.writer = w.writer
      ∧ t.linesWritten = w.linesWritten ∧ t.currentPixel = w.currentPixel
      ∧ (∀ x y : Int, setCount t x y = setCount w x y)) (capSem cfg) w ?_ ?_
  · exact ⟨hs, rfl, rfl, rfl, rfl, fun _ _ => rfl⟩
  · rintro k t hk ⟨h1, h2, h3, h4, h5, h6⟩
    refine ⟨{ t with sem := t.sem + 1, events := t.events ++ [.semSend] }, ?_, ?_, h2, h3, h4,
      h5, ?_⟩
    · simp [semSend, h1, hk]
    · simp [h1]
    · intro x y
      rw [← h6 x y]
      simp [setCount, List.countP_append, List.countP_cons]

/-- In classic mode, with room in the channel, `renderImage` returns. -/
theorem renderImage_classic (cfg : Config) (hm : cfg.coloringMethod = "classic")
    (w : World) (hs : w.sem = 0) (hc : 0 < capSem cfg) :
    ∃ t, renderImage cfg w = .ok t ∧ t.sem = capSem cfg
      ∧ (∀ x y : Int, t.img x y =
          if (0 ≤ x ∧ x < imHeight ∧ 0 ≤ y ∧ y < imWidth)
              ∧ (0 ≤ x ∧ x < imWidth ∧ 0 ≤ y ∧ y < imHeight) then
            (if belongsToSet ⟨(x : ℚ), (y : ℚ)⟩ then colorBlack else colorWhite)
          else w.img x y)
      ∧ (∀ x y : Int, setCount t x y
          = setCount w x y + if 0 ≤ x ∧ x < imHeight ∧ 0 ≤ y ∧ y < imWidth then 1 else 0)
      ∧ (∃ recs : List Line, t.writer = w.writer ++ recs ∧ (∀ l ∈ recs, l ≠ Line.header)
          ∧ recs.length =
            if cfg.maxLinesToWrite = -1 then totalPixels
            else min totalPixels (cfg.maxLinesToWrite - w.linesWritten).toNat) := by
  obtain ⟨t, hrun, hsem, himg, hcnt, hcp, recs, hw, hrec, _, _, hlen⟩ :=
    scanLoops_classic cfg hm imHeight imWidth w (by rw [hs]; exact hc)
  obtain ⟨t', hrun', hsem', himg', hw', _, _, hcnt'⟩ := drainLoop_empty cfg t (by rw [hsem, hs])
  refine ⟨t', ?_, hsem', ?_, ?_, recs, by rw [hw', hw], hrec, ?_⟩
  · show (scanLoops cfg imHeight imWidth w >>= fun w => drainLoop cfg w) = _
    rw [hrun]
    exact hrun'
  · intro x y
    rw [himg', himg]
  · intro x y
    rw [hcnt', hcnt]
  · rw [hlen, hcp, Nat.add_sub_cancel_left]
    rfl

theorem Except_ok_bind {α β : Type} (a : α) (f : α → Except Fault β) :
    (Except.ok a >>= f) = f a := rfl

theorem mainSetup_ok (cfg : Config) (hc : 0 ≤ cfg.concurrencyLevel) :
    mainSetup cfg false
      = .ok (if cfg.maxLinesToWrite > 0 ∨ cfg.maxLinesToWrite = -1 then
          { World.init with writer := [Line.header], events := [Event.logWrite Line.header] }
        else World.init) := by
  unfold mainSetup
  have h : ¬ cfg.concurrencyLevel < 0 := not_lt.mpr hc
  by_cases hl : cfg.maxLinesToWrite > 0 ∨ cfg.maxLinesToWrite = -1
  · simp [h, hl, World.init, bind, Except.bind, pure, Except.pure]
  · simp [h, hl, bind, Except.bind, pure, Except.pure]

/-- In classic mode with a positive concurrency level and a data file that
opens, in the schedule in which every goroutine runs to completion when
spawned, `main` gets past `renderImage`; the canvas and the log are then as
follows. -/
theorem main_classic (cfg : Config) (hm : cfg.coloringMethod = "classic")
    (hc : 0 < cfg.concurrencyLevel) :
    ∃ t, main cfg false = .ok t
      ∧ (∀ x y : Int, t.img x y =
          if (0 ≤ x ∧ x < imHeight ∧ 0 ≤ y ∧ y < imWidth)
              ∧ (0 ≤ x ∧ x < imWidth ∧ 0 ≤ y ∧ y < imHeight) then
            (if belongsToSet ⟨(x : ℚ), (y : ℚ)⟩ then colorBlack else colorWhite)
          else background)
      ∧ (∀ x y : Int, setCount t x y
          = if 0 ≤ x ∧ x < imHeight ∧ 0 ≤ y ∧ y < imWidth then 1 else 0)
      ∧ (∃ recs : List Line,
          t.writer = (if cfg.maxLinesToWrite > 0 ∨ cfg.maxLinesToWrite = -1 then [Line.header]
            else []) ++ recs
          ∧ (∀ l ∈ recs, l ≠ Line.header)
          ∧ recs.length =
            if cfg.maxLinesToWrite = -1 then totalPixels
            else min totalPixels cfg.maxLinesToWrite.toNat) := by
  have hcap : 0 < capSem cfg := by unfold capSem; omega
  have hsetup := mainSetup_ok cfg (le_of_lt hc)
  show ∃ t, (mainSetup cfg false >>= fun w => renderImage cfg w) = .ok t ∧ _
  rw [hsetup, Except_ok_bind]
  by_cases hl : cfg.maxLinesToWrite > 0 ∨ cfg.maxLinesToWrite = -1
  · rw [if_pos hl]
    obtain ⟨t, hrun, _, himg, hcnt, recs, hw, hrec, hlen⟩ :=
      renderImage_classic cfg hm
        { World.init with writer := [Line.header], events := [Event.logWrite Line.header] }
        rfl hcap
    refine ⟨t, hrun, himg, ?_, recs, by rw [if_pos hl]; exact hw, hrec, ?_⟩
    · intro x y
      rw [hcnt]
      simp [setCount]
    · rw [hlen]
      simp [World.init]
  · rw [if_neg hl]
    obtain ⟨t, hrun, _, himg, hcnt, recs, hw, hrec, hlen⟩ :=
      renderImage_classic cfg hm World.init rfl hcap
    refine ⟨t, hrun, himg, ?_, recs, by rw [if_neg hl]; exact hw, hrec, ?_⟩
    · intro x y
      rw [hcnt]
      simp [setCount, World.init]
    · rw [hlen]
      simp [World.init]

/-! ## Goroutines interleaved: the channel bounds the holders of a slot -/

theorem countP_set_holdsSlot (l : List Task) (n : Nat) (t t' : Task) (h : l[n]? = some t) :
    (l.set n t').countP Task.holdsSlot + (if t.holdsSlot then 1 else 0)
      = l.countP Task.holdsSlot + (if t'.holdsSlot then 1 else 0) := by
  induction l generalizing n with
  | nil => simp at h
  | cons a l ih =>
    cases n with
    | zero =>
      simp only [List.getElem?_cons_zero, Option.some.injEq] at h
      subst h
      simp only [List.set_cons_zero, List.countP_cons]
      omega
    | succ n =>
      simp only [List.getElem?_cons_succ] at h
      have := ih n h
      simp only [List.set_cons_succ, List.countP_cons]
      omega

theorem getColorFromClassicMandelbrot_sem (cfg : Config) (c : Cplx) (w : World) :
    (getColorFromClassicMandelbrot cfg c w).1.sem = w.sem := by
  rw [getColorFromClassicMandelbrot_fst]
  split <;> rfl

theorem getColorFromMLMandelbrot_ok (cfg : Config) (c : Cplx) (w w' : World) (res : testResult)
    (h : getColorFromMLMandelbrot cfg c w = .ok (w', res)) :
    ∃ b, Predict cfg.mlService c = .ok b
      ∧ w' = { w with events := w.events ++ [.verdict c b] }
      ∧ res = { C := c, Color := if b then colorBlack else colorWhite } := by
  unfold getColorFromMLMandelbrot at h
  cases hp : Predict cfg.mlService c with
  | error e => rw [hp] at h; simp [bind, Except.bind] at h
  | ok b =>
    rw [hp] at h
    refine ⟨b, rfl, ?_⟩
    cases b <;> simp [bind, Except.bind, pure, Except.pure] at h <;>
      simp [h.1.symm, h.2.symm]

/-- The invariant behind the admission bound: the goroutines holding a slot,
together with the sends of the main goroutine that no goroutine will match,
are covered by the values buffered in the channel, which are at most `cap(sem)`. -/
theorem step_inv (cfg : Config) (s s' : Sys) (a : Action) (hstep : step cfg s a = some s')
    (hinv : holding s + unmatchedSends cfg s.mainPc ≤ s.world.sem
      ∧ s.world.sem ≤ capSem cfg) :
    holding s' + unmatchedSends cfg s'.mainPc ≤ s'.world.sem ∧ s'.world.sem ≤ capSem cfg := by
  obtain ⟨h1, h2⟩ := hinv
  have haux : ∀ pc, unmatchedSends cfg pc = match pc with
      | .send _ _ => 0
      | .spawn _ _ => 1
      | .drain k => k
      | .returned => capSem cfg := by
    intro pc; cases pc <;> rfl
  generalize unmatchedSends cfg = aux at h1 haux ⊢
  have hdrain : ∀ k, aux (drainPc cfg k) = if k < capSem cfg then k else capSem cfg := by
    intro k
    unfold drainPc
    split <;> simp [haux]
  have hhead : ∀ i j, aux (loopHead cfg i j) = 0 := by
    intro i j
    unfold loopHead
    have h0 := hdrain 0
    have h00 : (if 0 < capSem cfg then 0 else capSem cfg) = 0 := by split <;> omega
    rw [h00] at h0
    split
    · split
      · simp [haux]
      · split
        · simp [haux]
        · exact h0
    · exact h0
  unfold step at hstep
  split at hstep
  · exact absurd hstep (by simp)
  · cases a with
    | main =>
      simp only at hstep
      unfold stepMain at hstep
      split at hstep
      · -- send
        rename_i i j hpc
        by_cases hlt : s.world.sem < capSem cfg
        · simp only [semSend, if_pos hlt, Option.some.injEq] at hstep
          subst hstep
          rw [hpc, haux] at h1
          simp only [haux, holding] at h1 ⊢
          constructor <;> omega
        · simp [semSend, if_neg hlt] at hstep
      · -- spawn
        rename_i i j hpc
        simp only [Option.some.injEq] at hstep
        subst hstep
        rw [hpc, haux] at h1
        simp only at h1
        simp only [hhead, holding] at h1 ⊢
        refine ⟨?_, h2⟩
        split
        · rw [List.countP_append]
          simp [Task.holdsSlot]
          omega
        · omega
      · -- drain
        rename_i k hpc
        by_cases hlt : s.world.sem < capSem cfg
        · simp only [semSend, if_pos hlt, Option.some.injEq] at hstep
          subst hstep
          rw [hpc, haux] at h1
          simp only at h1
          simp only [hdrain, holding] at h1 ⊢
          constructor
          · split <;> omega
          · omega
        · simp [semSend, if_neg hlt] at hstep
      · exact absurd hstep (by simp)
    | task n =>
      simp only at hstep
      unfold stepTask at hstep
      split at hstep
      · exact absurd hstep (by simp)
      · rename_i t ht
        split at hstep
        · -- start
          rename_i hpc
          have hold : t.holdsSlot = true := by simp [Task.holdsSlot, hpc]
          split at hstep
          · split at hstep
            · rename_i w res hml
              obtain ⟨b, _, hw, _⟩ := getColorFromMLMandelbrot_ok cfg _ _ _ _ hml
              simp only [Option.some.injEq] at hstep
              subst hstep
              have hc := countP_set_holdsSlot s.tasks n t { t with pc := .classified res } ht
              rw [hold] at hc
              simp only [Task.holdsSlot, if_true] at hc
              simp only [holding, hw] at h1 ⊢
              constructor <;> omega
            · simp only [Option.some.injEq] at hstep
              subst hstep
              exact ⟨h1, h2⟩
          · simp only [Option.some.injEq] at hstep
            subst hstep
            have hc := countP_set_holdsSlot s.tasks n t
              { t with pc := .classified (getColorFromClassicMandelbrot cfg t.c s.world).2 } ht
            rw [hold] at hc
            simp only [Task.holdsSlot, if_true] at hc
            simp only [holding, getColorFromClassicMandelbrot_sem] at h1 ⊢
            constructor <;> omega
        · -- classified
          rename_i res hpc
          have hold : t.holdsSlot = true := by simp [Task.holdsSlot, hpc]
          by_cases hpos : 0 < s.world.sem
          · simp only [semRecv, if_pos hpos, Option.some.injEq] at hstep
            subst hstep
            have hc := countP_set_holdsSlot s.tasks n t { t with pc := .released res } ht
            rw [hold] at hc
            simp only [Task.holdsSlot, if_true] at hc
            simp only [holding] at h1 ⊢
            simp at hc
            constructor <;> omega
          · simp [semRecv, if_neg hpos] at hstep
        · -- released
          rename_i res hpc
          have hold : t.holdsSlot = false := by simp [Task.holdsSlot, hpc]
          simp only [Option.some.injEq] at hstep
          subst hstep
          have hc := countP_set_holdsSlot s.tasks n t { t with pc := .done } ht
          rw [hold] at hc
          simp only [Task.holdsSlot] at hc
          simp only [holding, plot] at h1 ⊢
          simp at hc
          constructor <;> omega
        · exact absurd hstep (by simp)

/-- Every state reached from the entry of `renderImage` with an empty channel
satisfies the invariant of `step_inv`. -/
theorem run_inv (cfg : Config) (acts : List Action) (s s' : Sys)
    (hrun : run cfg acts s = some s')
    (hinv : holding s + unmatchedSends cfg s.mainPc ≤ s.world.sem
      ∧ s.world.sem ≤ capSem cfg) :
    holding s' + unmatchedSends cfg s'.mainPc ≤ s'.world.sem ∧ s'.world.sem ≤ capSem cfg := by
  induction acts generalizing s with
  | nil =>
    simp only [run, Option.some.injEq] at hrun
    subst hrun
    exact hinv
  | cons a rest ih =>
    simp only [run] at hrun
    cases hs : step cfg s a with
    | none => rw [hs] at hrun; simp at hrun
    | some s1 =>
      rw [hs] at hrun
      exact ih s1 hrun (step_inv cfg s s1 a hs hinv)

theorem unmatchedSends_loopHead (cfg : Config) (i j : Nat) :
    unmatchedSends cfg (loopHead cfg i j) = 0 := by
  have h0 : unmatchedSends cfg (drainPc cfg 0) = 0 := by
    unfold drainPc
    split
    · rfl
    · show capSem cfg = 0
      omega
  unfold loopHead
  split
  · split
    · rfl
    · split
      · rfl
      · exact h0
  · exact h0

theorem mainSetup_sem (cfg : Config) (openErr : Bool) (w0 : World)
    (h : mainSetup cfg openErr = .ok w0) : w0.sem = 0 ∧ 0 ≤ cfg.concurrencyLevel := by
  unfold mainSetup at h
  by_cases hc : cfg.concurrencyLevel < 0
  · simp [hc, bind, Except.bind, throw, throwThe, MonadExceptOf.throw] at h
  · refine ⟨?_, not_lt.mp hc⟩
    by_cases hl : cfg.maxLinesToWrite > 0 ∨ cfg.maxLinesToWrite = -1 <;>
    cases openErr <;>
    simp [hc, hl, bind, Except.bind, throw, throwThe, MonadExceptOf.throw, pure, Except.pure,
      World.init] at h <;>
    simp [← h]

/-! ## The run to completion is one of the interleavings -/

theorem run_append (cfg : Config) (as bs : List Action) (s : Sys) :
    run cfg (as ++ bs) s = (run cfg as s).bind (run cfg bs) := by
  induction as generalizing s with
  | nil => rfl
  | cons a as ih =>
    simp only [List.cons_append, run]
    cases step cfg s a with
    | none => rfl
    | some s1 => exact ih s1

theorem run_cons_some (cfg : Config) (a : Action) (rest : List Action) (s s1 : Sys)
    (h : step cfg s a = some s1) : run cfg (a :: rest) s = run cfg rest s1 := by
  simp only [run, h, Option.bind]

theorem set_concat_length (l : List Task) (t t' : Task) :
    (l ++ [t]).set l.length t' = l ++ [t'] := by
  rw [List.set_append_right _ _ (le_refl _)]
  simp

theorem scanPixel_classic_eq (cfg : Config) (hm : cfg.coloringMethod = "classic")
    (i j : Nat) (w : World) (hs : w.sem < capSem cfg) :
    scanPixel cfg i j w
      = .ok { plot ⟨(i : ℚ), (j : ℚ)⟩
                (if belongsToSet ⟨(i : ℚ), (j : ℚ)⟩ then colorBlack else colorWhite)
                { (getColorFromClassicMandelbrot cfg ⟨(i : ℚ), (j : ℚ)⟩
                    { w with sem := w.sem + 1, events := w.events ++ [.semSend] }).1 with
                  sem := w.sem
                  events := (getColorFromClassicMandelbrot cfg ⟨(i : ℚ), (j : ℚ)⟩
                    { w with sem := w.sem + 1, events := w.events ++ [.semSend] }).1.events
                      ++ [.semRecv] } with
              currentPixel := w.currentPixel + 1 } := by
  unfold scanPixel
  rw [plotPixel_classic cfg hm _ w hs, classicTask_eq cfg _ _ (Nat.succ_pos _),
    getColorFromClassicMandelbrot_fst]
  by_cases hlog : cfg.maxLinesToWrite = -1 ∨ w.linesWritten < cfg.maxLinesToWrite
  · simp [hlog, plot, bind, Except.bind, pure, Except.pure]
  · simp [hlog, plot, bind, Except.bind, pure, Except.pure]

theorem step_send (cfg : Config) (w : World) (tasks : List Task) (i j : Nat)
    (hs : w.sem < capSem cfg) :
    step cfg { world := w, mainPc := .send i j, tasks := tasks, panicked := false } .main
      = some { world := { w with sem := w.sem + 1, events := w.events ++ [.semSend] },
               mainPc := .spawn i j, tasks := tasks, panicked := false } := by
  simp [step, stepMain, semSend, hs]

theorem step_spawn_classic (cfg : Config) (hm : cfg.coloringMethod = "classic")
    (w : World) (tasks : List Task) (i j : Nat) :
    step cfg { world := w, mainPc := .spawn i j, tasks := tasks, panicked := false } .main
      = some { world := { w with currentPixel := w.currentPixel + 1 },
               mainPc := loopHead cfg i (j + 1),
               tasks := tasks ++ [{ c := ⟨(i : ℚ), (j : ℚ)⟩, pc := .start }],
               panicked := false } := by
  simp [step, stepMain, hm]

theorem step_classify_classic (cfg : Config) (hm : cfg.coloringMethod = "classic")
    (w : World) (pc : MainPc) (tasks : List Task) (c : Cplx) :
    step cfg { world := w, mainPc := pc, tasks := tasks ++ [{ c := c, pc := .start }],
               panicked := false } (.task tasks.length)
      = some { world := (getColorFromClassicMandelbrot cfg c w).1, mainPc := pc,
               tasks := tasks ++
                 [⟨c, TaskPc.classified ⟨c, if belongsToSet c then colorBlack else colorWhite⟩⟩],
               panicked := false } := by
  have hml : ¬ (cfg.coloringMethod = "ml") := by rw [hm]; decide
  simp only [step, stepTask, List.getElem?_concat_length, if_neg hml, set_concat_length,
    getColorFromClassicMandelbrot_snd]
  rfl

theorem step_release (cfg : Config) (w : World) (pc : MainPc) (tasks : List Task) (c : Cplx)
    (res : testResult) (hs : 0 < w.sem) :
    step cfg { world := w, mainPc := pc, tasks := tasks ++ [{ c := c, pc := .classified res }],
               panicked := false } (.task tasks.length)
      = some { world := { w with sem := w.sem - 1, events := w.events ++ [.semRecv] },
               mainPc := pc, tasks := tasks ++ [{ c := c, pc := .released res }],
               panicked := false } := by
  simp only [step, stepTask, List.getElem?_concat_length, set_concat_length, semRecv, if_pos hs]
  rfl

theorem step_plot (cfg : Config) (w : World) (pc : MainPc) (tasks : List Task) (c : Cplx)
    (res : testResult) :
    step cfg { world := w, mainPc := pc, tasks := tasks ++ [{ c := c, pc := .released res }],
               panicked := false } (.task tasks.length)
      = some { world := plot res.C res.Color w, mainPc := pc,
               tasks := tasks ++ [{ c := c, pc := .done }], panicked := false } := by
  simp only [step, stepTask, List.getElem?_concat_length, set_concat_length]
  rfl

/-- The schedule main, main, goroutine, goroutine, goroutine takes the
interleaved program through one pixel exactly as `scanPixel` does. -/
theorem run_pixel (cfg : Config) (hm : cfg.coloringMethod = "classic") (w : World)
    (tasks : List Task) (i j : Nat) (hs : w.sem < capSem cfg) :
    ∃ w', scanPixel cfg i j w = .ok w' ∧ w'.sem = w.sem
      ∧ run cfg [.main, .main, .task tasks.length, .task tasks.length, .task tasks.length]
          { world := w, mainPc := .send i j, tasks := tasks, panicked := false }
        = some { world := w', mainPc := loopHead cfg i (j + 1),
                 tasks := tasks ++ [{ c := ⟨(i : ℚ), (j : ℚ)⟩, pc := .done }],
                 panicked := false } := by
  refine ⟨_, scanPixel_classic_eq cfg hm i j w hs, by simp [plot], ?_⟩
  rw [run_cons_some cfg _ _ _ _ (step_send cfg w tasks i j hs),
    run_cons_some cfg _ _ _ _ (step_spawn_classic cfg hm _ tasks i j),
    run_cons_some cfg _ _ _ _ (step_classify_classic cfg hm _ _ tasks _),
    run_cons_some cfg _ _ _ _ (step_release cfg _ _ tasks _ _
      (by rw [getColorFromClassicMandelbrot_sem]; exact Nat.succ_pos _)),
    run_cons_some cfg _ _ _ _ (step_plot cfg _ _ tasks _ _)]
  simp only [run, getColorFromClassicMandelbrot_fst]
  by_cases hlog : cfg.maxLinesToWrite = -1 ∨ w.linesWritten < cfg.maxLinesToWrite
  · simp [hlog, plot]
  · simp [hlog, plot]

theorem loopHead_send (cfg : Config) (i j : Nat) (hi : i < imHeight) (hj : j < imWidth) :
    loopHead cfg i j = .send i j := by
  unfold loopHead
  rw [if_pos hi, if_pos hj]

theorem loopHead_row_end (cfg : Config) (i : Nat) (hi : i < imHeight) :
    loopHead cfg i imWidth = loopHead cfg (i + 1) 0 := by
  have hW : 0 < imWidth := by decide
  unfold loopHead
  rw [if_pos hi, if_neg (Nat.lt_irrefl _)]
  by_cases h : i + 1 < imHeight
  · rw [if_pos ⟨h, hW⟩, if_pos h, if_pos hW]
  · rw [if_neg (fun h' => h h'.1), if_neg h]

theorem loopHead_end (cfg : Config) : loopHead cfg imHeight 0 = drainPc cfg 0 := by
  unfold loopHead
  rw [if_neg (Nat.lt_irrefl _)]

/-- Some schedule takes the interleaved program through the first `j` pixels
of row `i` exactly as the inner loop of `renderImage` does. -/
theorem run_row (cfg : Config) (hm : cfg.coloringMethod = "classic") (i : Nat)
    (hi : i < imHeight) (w : World) (tasks : List Task) (hs : w.sem < capSem cfg) (j : Nat)
    (hj : j ≤ imWidth) :
    ∃ acts w' tasks', scanRow cfg j i w = .ok w' ∧ w'.sem = w.sem
      ∧ run cfg acts { world := w, mainPc := loopHead cfg i 0, tasks := tasks, panicked := false }
        = some { world := w', mainPc := loopHead cfg i j, tasks := tasks', panicked := false } := by
  induction j with
  | zero => exact ⟨[], w, tasks, rfl, rfl, rfl⟩
  | succ j ih =>
    obtain ⟨acts, w1, tasks1, hloop, hsem, hrun⟩ := ih (Nat.le_of_succ_le hj)
    obtain ⟨w2, hpix, hsem2, hrun2⟩ :=
      run_pixel cfg hm w1 tasks1 i j (by rw [hsem]; exact hs)
    refine ⟨acts ++ [.main, .main, .task tasks1.length, .task tasks1.length,
      .task tasks1.length], w2, tasks1 ++ [{ c := ⟨(i : ℚ), (j : ℚ)⟩, pc := .done }],
      ?_, by rw [hsem2, hsem], ?_⟩
    · have hloop' : forLoop (fun j w => scanPixel cfg i j w) j w = .ok w1 := hloop
      show (forLoop (fun j w => scanPixel cfg i j w) j w >>= fun s => scanPixel cfg i j s) = _
      rw [hloop']
      exact hpix
    · rw [run_append, hrun, loopHead_send cfg i j hi hj]
      exact hrun2

/-- Some schedule takes the interleaved program through the first `i` rows
exactly as the outer loop of `renderImage` does. -/
theorem run_rows (cfg : Config) (hm : cfg.coloringMethod = "classic") (w : World)
    (hs : w.sem < capSem cfg) (i : Nat) (hi : i ≤ imHeight) :
    ∃ acts w' tasks', scanLoops cfg i imWidth w = .ok w' ∧ w'.sem = w.sem
      ∧ run cfg acts (Sys.start cfg w)
        = some { world := w', mainPc := loopHead cfg i 0, tasks := tasks', panicked := false } := by
  induction i with
  | zero => exact ⟨[], w, [], rfl, rfl, rfl⟩
  | succ i ih =>
    obtain ⟨acts, w1, tasks1, hloop, hsem, hrun⟩ := ih (Nat.le_of_succ_le hi)
    obtain ⟨acts2, w2, tasks2, hrow, hsem2, hrun2⟩ :=
      run_row cfg hm i hi w1 tasks1 (by rw [hsem]; exact hs) imWidth (le_refl _)
    refine ⟨acts ++ acts2, w2, tasks2, ?_, by rw [hsem2, hsem], ?_⟩
    · show (forLoop (fun i w => scanRow cfg imWidth i w) i w
        >>= fun s => scanRow cfg imWidth i s) = _
      have hloop' : forLoop (fun i w => scanRow cfg imWidth i w) i w = .ok w1 := hloop
      rw [hloop', Except_ok_bind]
      exact hrow
    · rw [run_append, hrun, ← loopHead_row_end cfg i hi]
      exact hrun2

/-- Some schedule fills the channel exactly as the final loop of
`renderImage` does. -/
theorem run_drain (cfg : Config) (w : World) (tasks : List Task) (hs : w.sem = 0) (k : Nat)
    (hk : k ≤ capSem cfg) :
    ∃ acts w', forLoop (fun _ w => semSend cfg w) k w = .ok w' ∧ w'.sem = k
      ∧ run cfg acts { world := w, mainPc := drainPc cfg 0, tasks := tasks, panicked := false }
        = some { world := w', mainPc := drainPc cfg k, tasks := tasks, panicked := false } := by
  induction k with
  | zero => exact ⟨[], w, rfl, hs, rfl⟩
  | succ k ih =>
    obtain ⟨acts, w1, hloop, hsem, hrun⟩ := ih (Nat.le_of_succ_le hk)
    have hlt : w1.sem < capSem cfg := by omega
    refine ⟨acts ++ [.main], { w1 with sem := w1.sem + 1, events := w1.events ++ [.semSend] },
      ?_, by simp [hsem], ?_⟩
    · show (forLoop (fun _ w => semSend cfg w) k w >>= fun s => semSend cfg s) = _
      rw [hloop]
      simp [semSend, hlt, bind, Except.bind]
    · rw [run_append, hrun]
      have hpc : drainPc cfg k = .drain k := by
        unfold drainPc
        rw [if_pos (by omega)]
      simp [Option.bind, run, step, stepMain, hpc, semSend, hlt]

/-- In classic mode the run to completion of `renderImage` is one of the
interleavings: some schedule ends with `renderImage` returned and the
shared variables as `renderImage` leaves them. -/
theorem renderImage_is_schedule (cfg : Config) (hm : cfg.coloringMethod = "classic")
    (w : World) (hs : w.sem = 0) (hc : 0 < capSem cfg) :
    ∃ acts s, run cfg acts (Sys.start cfg w) = some s ∧ s.mainPc = .returned
      ∧ renderImage cfg w = .ok s.world := by
  obtain ⟨acts, w1, tasks1, hloop, hsem, hrun⟩ :=
    run_rows cfg hm w (by rw [hs]; exact hc) imHeight (le_refl _)
  obtain ⟨acts2, w2, hdrain, _, hrun2⟩ :=
    run_drain cfg w1 tasks1 (by rw [hsem, hs]) (capSem cfg) (le_refl _)
  refine ⟨acts ++ acts2,
    { world := w2, mainPc := drainPc cfg (capSem cfg), tasks := tasks1, panicked := false },
    ?_, ?_, ?_⟩
  · rw [run_append, hrun, loopHead_end]
    exact hrun2
  · show drainPc cfg (capSem cfg) = .returned
    unfold drainPc
    rw [if_neg (Nat.lt_irrefl _)]
  · show (scanLoops cfg imHeight imWidth w >>= fun w => drainLoop cfg w) = _
    rw [hloop]
    exact hdrain

/-! ## A schedule in which `renderImage` returns before the last `plot` -/

theorem getColorFromClassicMandelbrot_img (cfg : Config) (c : Cplx) (w : World) :
    (getColorFromClassicMandelbrot cfg c w).1.img = w.img := by
  rw [getColorFromClassicMandelbrot_fst]
  split <;> rfl

theorem getColorFromClassicMandelbrot_setCount (cfg : Config) (c : Cplx) (w : World)
    (x y : Int) : setCount (getColorFromClassicMandelbrot cfg c w).1 x y = setCount w x y := by
  rw [getColorFromClassicMandelbrot_fst]
  split <;> simp [setCount, List.countP_append, List.countP_cons]

theorem loopHead_last (cfg : Config) : loopHead cfg 799 (799 + 1) = drainPc cfg 0 := by
  simp [loopHead, imHeight, imWidth]

/-- The schedule main, main, goroutine, goroutine takes the interleaved
program through the send, the spawn, the classification and the release of
one pixel and stops before its `plot`: the canvas is untouched. -/
theorem run_pixel_released (cfg : Config) (hm : cfg.coloringMethod = "classic") (w : World)
    (tasks : List Task) (i j : Nat) (hs : w.sem < capSem cfg) :
    ∃ w' res, w'.sem = w.sem ∧ w'.img = w.img
      ∧ (∀ x y : Int, setCount w' x y = setCount w x y)
      ∧ run cfg [.main, .main, .task tasks.length, .task tasks.length]
          { world := w, mainPc := .send i j, tasks := tasks, panicked := false }
        = some { world := w', mainPc := loopHead cfg i (j + 1),
                 tasks := tasks ++ [{ c := ⟨(i : ℚ), (j : ℚ)⟩, pc := .released res }],
                 panicked := false } := by
  refine ⟨{ (getColorFromClassicMandelbrot cfg ⟨(i : ℚ), (j : ℚ)⟩
        { w with sem := w.sem + 1, events := w.events ++ [.semSend],
                 currentPixel := w.currentPixel + 1 }).1 with
      sem := (getColorFromClassicMandelbrot cfg ⟨(i : ℚ), (j : ℚ)⟩
        { w with sem := w.sem + 1, events := w.events ++ [.semSend],
                 currentPixel := w.currentPixel + 1 }).1.sem - 1
      events := (getColorFromClassicMandelbrot cfg ⟨(i : ℚ), (j : ℚ)⟩
        { w with sem := w.sem + 1, events := w.events ++ [.semSend],
                 currentPixel := w.currentPixel + 1 }).1.events ++ [.semRecv] },
    ⟨⟨(i : ℚ), (j : ℚ)⟩, if belongsToSet ⟨(i : ℚ), (j : ℚ)⟩ then colorBlack else colorWhite⟩,
    ?_, ?_, ?_, ?_⟩
  rotate_left 3
  · rw [run_cons_some cfg _ _ _ _ (step_send cfg w tasks i j hs),
      run_cons_some cfg _ _ _ _ (step_spawn_classic cfg hm _ tasks i j),
      run_cons_some cfg _ _ _ _ (step_classify_classic cfg hm _ _ tasks _),
      run_cons_some cfg _ _ _ _ (step_release cfg _ _ tasks _ _
        (by rw [getColorFromClassicMandelbrot_sem]; exact Nat.succ_pos _))]
    rfl
  · simp [getColorFromClassicMandelbrot_sem]
  · simp [getColorFromClassicMandelbrot_img]
  · intro x y
    have h := getColorFromClassicMandelbrot_setCount cfg ⟨(i : ℚ), (j : ℚ)⟩
      { w with sem := w.sem + 1, events := w.events ++ [.semSend],
               currentPixel := w.currentPixel + 1 } x y
    simp only [setCount, List.countP_append, List.countP_cons, List.countP_nil] at h ⊢
    simp at h ⊢
    exact h

/-- In classic mode some schedule lets `renderImage` return while the
goroutine of the last pixel, `complex(799, 799)`, has executed `<-sem` but not
yet `plot`: the final loop only waits for the releases. In the state reached
the cell `(799, 799)` is as it was when `renderImage` was entered, and no
`img.Set` has been called for it. -/
theorem renderImage_returns_before_plot (cfg : Config)
    (hm : cfg.coloringMethod = "classic") (w : World) (hs : w.sem = 0)
    (hc : 0 < capSem cfg) :
    ∃ acts s res, run cfg acts (Sys.start cfg w) = some s ∧ s.mainPc = .returned
      ∧ s.panicked = false
      ∧ ({ c := ⟨((799 : Nat) : ℚ), ((799 : Nat) : ℚ)⟩, pc := .released res } : Task) ∈ s.tasks
      ∧ s.world.img 799 799 = w.img 799 799
      ∧ setCount s.world 799 799 = setCount w 799 799 := by
  have hs' : w.sem < capSem cfg := by rw [hs]; exact hc
  have hi : 799 < imHeight := by decide
  -- the first 799 rows, run to completion
  obtain ⟨acts1, w1, tasks1, hloop1, hsem1, hrun1⟩ := run_rows cfg hm w hs' 799 (by decide)
  obtain ⟨t1, ht1, _, himg1, hcnt1, _, _⟩ := scanLoops_classic cfg hm 799 imWidth w hs'
  have e1 : t1 = w1 := Except.ok.inj (ht1.symm.trans hloop1)
  subst e1
  -- the first 799 pixels of the last row, run to completion
  obtain ⟨acts2, w2, tasks2, hrow2, hsem2, hrun2⟩ :=
    run_row cfg hm 799 hi t1 tasks1 (by rw [hsem1]; exact hs') 799 (by decide)
  obtain ⟨t2, ht2, _, himg2, hcnt2, _, _⟩ :=
    scanRow_classic cfg hm t1 799 799 t1 (by rw [hsem1]; exact hs') (LogInv_refl cfg t1)
  have e2 : t2 = w2 := Except.ok.inj (ht2.symm.trans hrow2)
  subst e2
  have hsem : t2.sem = 0 := by rw [hsem2, hsem1, hs]
  -- the last pixel up to its release
  obtain ⟨w3, res, hsem3, himg3, hcnt3, hrun3⟩ :=
    run_pixel_released cfg hm t2 tasks2 799 799 (by rw [hsem]; exact hc)
  -- the final loop
  obtain ⟨acts4, w4, hdr, _, hrun4⟩ :=
    run_drain cfg w3
      (tasks2 ++ [{ c := ⟨((799 : Nat) : ℚ), ((799 : Nat) : ℚ)⟩, pc := .released res }])
      (by rw [hsem3, hsem]) (capSem cfg) (le_refl _)
  obtain ⟨t4, ht4, _, himg4, _, _, _, hcnt4⟩ := drainLoop_empty cfg w3 (by rw [hsem3, hsem])
  have e4 : t4 = w4 := Except.ok.inj (ht4.symm.trans hdr)
  subst e4
  refine ⟨acts1 ++ (acts2 ++ ([.main, .main, .task tasks2.length, .task tasks2.length] ++ acts4)),
    { world := t4, mainPc := drainPc cfg (capSem cfg),
      tasks := tasks2 ++ [{ c := ⟨((799 : Nat) : ℚ), ((799 : Nat) : ℚ)⟩, pc := .released res }],
      panicked := false }, res, ?_, ?_, rfl, ?_, ?_, ?_⟩
  · rw [run_append, hrun1]
    show run cfg _ _ = _
    rw [run_append, hrun2]
    show run cfg _ _ = _
    rw [loopHead_send cfg 799 799 hi (by decide), run_append, hrun3]
    show run cfg acts4 _ = _
    rw [loopHead_last]
    exact hrun4
  · show drainPc cfg (capSem cfg) = .returned
    unfold drainPc
    rw [if_neg (Nat.lt_irrefl _)]
  · simp
  · show t4.img 799 799 = _
    rw [himg4, himg3, himg2, if_neg (by rintro ⟨⟨_, _, h⟩, _⟩; omega), himg1,
      if_neg (by rintro ⟨⟨_, h, _⟩, _⟩; omega)]
  · show setCount t4 799 799 = _
    rw [hcnt4, hcnt3, hcnt2, if_neg (by rintro ⟨_, _, h⟩; omega), hcnt1,
      if_neg (by rintro ⟨_, h, _⟩; omega)]
    rfl

/-! ## The claims -/

/-- C1. The code does the opposite of the claim: `belongsToSet` answers `false`
exactly when the loop reaches the bailout count 30 with no tested iterate
above `radiusSquared = 4`, and `true` otherwise. At the input mapped to
`0+0i` it answers `false`, at the input mapped to `2+2i` it answers `true`,
and at the pixel `complex(0, 0)` it answers `true`. -/
theorem C1_belongsToSet_inverted :
    (∀ c, belongsToSet c = false ↔ ∀ k, k < bailoutIteration → normSq (orbit c k) ≤ 4)
    ∧ (planePoint cOrigin = ⟨0, 0⟩ ∧ belongsToSet cOrigin = false)
    ∧ (planePoint cTwoTwo = ⟨2, 2⟩ ∧ belongsToSet cTwoTwo = true)
    ∧ belongsToSet ⟨0, 0⟩ = true := by
  refine ⟨belongsToSet_eq_false_iff, ⟨?_, ?_⟩, ⟨?_, ?_⟩, belongsToSet_pixel00⟩
  · show (⟨reC cOrigin, imC cOrigin⟩ : Cplx) = _
    rw [reC_eq, imC_eq]
    norm_num [cOrigin]
  · rw [belongsToSet_eq_false_iff]
    intro k _
    rw [orbit_cOrigin]
    norm_num [normSq]
  · show (⟨reC cTwoTwo, imC cTwoTwo⟩ : Cplx) = _
    rw [reC_eq, imC_eq]
    norm_num [cTwoTwo]
  · rw [belongsToSet_eq_true_iff]
    refine ⟨1, le_refl _, by norm_num, ?_⟩
    rw [orbit_cTwoTwo_one]
    norm_num [normSq]

/-- C2. For the pixel `complex(i, j)` dispatched by `renderImage`, `plot`
colours the canvas cell `(x, y) = (i, j)`, and every step of `belongsToSet`
adds the point `re = minRe + x*(maxRe - minRe)/(imWidth - 1)`,
`im = maxIm - y*(maxIm - minIm)/(imHeight - 1)` to the square of the current
iterate, where `maxIm = minIm + (maxRe - minRe)*imHeight/imWidth`. -/
theorem C2_pixel_mapping (i j : Nat) (hi : i < imHeight) (hj : j < imWidth) :
    let c : Cplx := ⟨(i : ℚ), (j : ℚ)⟩
    let x : Int := goInt c.re
    let y : Int := goInt c.im
    x = (i : Int) ∧ y = (j : Int)
    ∧ (∀ (col : RGBA) (w : World),
        (plot c col w).events = w.events ++ [Event.canvasSet x y col]
        ∧ (plot c col w).img x y = col)
    ∧ (∀ current : Cplx, nextCurrent c current =
        ⟨current.re ^ 2 - current.im ^ 2
            + (minRe + (x : ℚ) * (maxRe - minRe) / ((imWidth : ℚ) - 1)),
          2 * current.re * current.im
            + (maxIm - (y : ℚ) * (maxIm - minIm) / ((imHeight : ℚ) - 1))⟩)
    ∧ maxIm = minIm + (maxRe - minRe) * (imHeight : ℚ) / (imWidth : ℚ) := by
  intro c x y
  have hx : x = (i : Int) := goInt_natCast i
  have hy : y = (j : Int) := goInt_natCast j
  have hH : imHeight = 800 := rfl
  have hW : imWidth = 800 := rfl
  refine ⟨hx, hy, fun col w => ⟨rfl, ?_⟩, fun current => ?_, rfl⟩
  · have himg : ∀ (c : Cplx), (plot c col w).img = imgSet w.img (goInt c.re) (goInt c.im) col :=
      fun _ => rfl
    have e1 : goInt c.re = (i : Int) := hx
    have e2 : goInt c.im = (j : Int) := hy
    rw [himg, imgSet_apply, if_pos]
    rw [e1, e2]
    refine ⟨⟨?_, ?_, ?_, ?_⟩, ?_, ?_⟩ <;> omega
  · rw [hx, hy]
    simp only [nextCurrent, reC, imC, widthFactor, heightFactor, c, Int.cast_natCast]
    congr 1 <;> ring

/-- C2 at the first pixel, `complex(0, 0)`. -/
theorem C2_pixel_mapping_witness :
    0 < imHeight ∧ 0 < imWidth
    ∧ (∀ current : Cplx, nextCurrent ⟨((0 : Nat) : ℚ), ((0 : Nat) : ℚ)⟩ current =
        ⟨current.re ^ 2 - current.im ^ 2
            + (minRe + ((goInt ((0 : Nat) : ℚ) : Int) : ℚ) * (maxRe - minRe)
                / ((imWidth : ℚ) - 1)),
          2 * current.re * current.im
            + (maxIm - ((goInt ((0 : Nat) : ℚ) : Int) : ℚ) * (maxIm - minIm)
                / ((imHeight : ℚ) - 1))⟩) :=
  ⟨by decide, by decide, (C2_pixel_mapping 0 0 (by decide) (by decide)).2.2.2.1⟩

/-- C3. The code breaks the claim. With the flags `-method classic -c 20 -n 0`
some schedule lets `renderImage` return, nothing having panicked, while the
goroutine of the pixel `complex(799, 799)` has executed `<-sem` but not yet
`plot`: the cell `(799, 799)`, inside the image bounds, still holds the
background value and has been set zero times. -/
theorem C3_canvas_incomplete_at_return :
    mainSetup (classicCfg 0) false = .ok World.init
    ∧ (0 ≤ (799 : Int) ∧ (799 : Int) < imWidth ∧ (799 : Int) < imHeight)
    ∧ ∃ acts s res,
        run (classicCfg 0) acts (Sys.start (classicCfg 0) World.init) = some s
        ∧ s.mainPc = MainPc.returned ∧ s.panicked = false
        ∧ ({ c := ⟨799, 799⟩, pc := TaskPc.released res } : Task) ∈ s.tasks
        ∧ s.world.img 799 799 = background
        ∧ setCount s.world 799 799 = 0 := by
  refine ⟨rfl, ⟨by decide, by decide, by decide⟩, ?_⟩
  obtain ⟨acts, s, res, hrun, hret, hp, hmem, himg, hcnt⟩ :=
    renderImage_returns_before_plot (classicCfg 0) rfl World.init rfl (by decide)
  have hc : (⟨((799 : Nat) : ℚ), ((799 : Nat) : ℚ)⟩ : Cplx) = ⟨799, 799⟩ := by
    simp
  rw [hc] at hmem
  exact ⟨acts, s, res, hrun, hret, hp, hmem, himg, hcnt⟩

/-- C4. In classic mode with the goroutines run one at a time in dispatch
order, a cap `k` with `0 < k < totalPixels` leaves a log of one header line
followed by exactly `k` data records, and the cap 0 leaves an empty log. -/
theorem C4_log_cap (cfg : Config) (hm : cfg.coloringMethod = "classic")
    (hc : 0 < cfg.concurrencyLevel) :
    (0 < cfg.maxLinesToWrite → cfg.maxLinesToWrite < totalPixels →
      ∃ t recs, main cfg false = .ok t ∧ t.writer = Line.header :: recs
        ∧ (recs.length : Int) = cfg.maxLinesToWrite
        ∧ ∀ l ∈ recs, ∃ re im b, l = Line.record re im b)
    ∧ (cfg.maxLinesToWrite = 0 → ∃ t, main cfg false = .ok t ∧ t.writer = []) := by
  obtain ⟨t, hrun, _, _, recs, hw, hrec, hlen⟩ := main_classic cfg hm hc
  constructor
  · intro h0 h1
    have hl : cfg.maxLinesToWrite > 0 ∨ cfg.maxLinesToWrite = -1 := Or.inl h0
    have hm1 : ¬ cfg.maxLinesToWrite = -1 := by omega
    rw [if_pos hl] at hw
    rw [if_neg hm1] at hlen
    refine ⟨t, recs, hrun, hw, by omega, ?_⟩
    intro l hl
    cases l with
    | header => exact absurd rfl (hrec _ hl)
    | record re im b => exact ⟨re, im, b, rfl⟩
  · intro h0
    have hl : ¬ (cfg.maxLinesToWrite > 0 ∨ cfg.maxLinesToWrite = -1) := by omega
    have hm1 : ¬ cfg.maxLinesToWrite = -1 := by omega
    rw [if_neg hl] at hw
    rw [if_neg hm1, h0] at hlen
    have hnil : recs = [] := List.eq_nil_of_length_eq_zero (by simpa using hlen)
    exact ⟨t, hrun, by rw [hw, hnil]; rfl⟩

/-- C4 for the flags `-method classic -c 20 -n 3` and `-n 0`. -/
theorem C4_log_cap_witness :
    (∃ t recs, main (classicCfg 3) false = .ok t ∧ t.writer = Line.header :: recs
        ∧ (recs.length : Int) = 3 ∧ ∀ l ∈ recs, ∃ re im b, l = Line.record re im b)
    ∧ (∃ t, main (classicCfg 0) false = .ok t ∧ t.writer = []) :=
  ⟨(C4_log_cap (classicCfg 3) rfl (by decide)).1 (by decide) (by decide),
   (C4_log_cap (classicCfg 0) rfl (by decide)).2 rfl⟩

/-- C5, the claim as stated fails at the cap `-2`: `main` writes no header
before the scan, and `getColorFromClassicMandelbrot` appends no record for
the first pixel. -/
theorem C5_negative_cap_counterexample :
    (-2 : Int) < 0
    ∧ mainSetup (classicCfg (-2)) false = .ok World.init
    ∧ World.init.writer = []
    ∧ (getColorFromClassicMandelbrot (classicCfg (-2)) ⟨0, 0⟩ World.init).1.writer = [] := by
  refine ⟨by decide, ?_, rfl, ?_⟩
  · rw [mainSetup_ok _ (by decide)]
    rfl
  · rw [getColorFromClassicMandelbrot_fst]
    rfl

/-- C5, amended. With the cap `-1` logging is unlimited: `main` writes the
header before the scan and `getColorFromClassicMandelbrot` appends the
record of every pixel it classifies, however many records were written
before. With a cap below `-1` nothing is logged: no header, and no record
as long as `linesWritten` is not negative. -/
theorem C5_cap_minus_one_unlimited (cfg : Config) (hc : 0 ≤ cfg.concurrencyLevel) :
    (cfg.maxLinesToWrite = -1 →
      (∃ w0, mainSetup cfg false = .ok w0 ∧ w0.writer = [Line.header])
      ∧ ∀ (c : Cplx) (w : World),
          (getColorFromClassicMandelbrot cfg c w).1.writer
            = w.writer ++ [Line.record c.re c.im (belongsToSet c)]
          ∧ (getColorFromClassicMandelbrot cfg c w).1.linesWritten = w.linesWritten + 1)
    ∧ (cfg.maxLinesToWrite < -1 →
      (∃ w0, mainSetup cfg false = .ok w0 ∧ w0.writer = [])
      ∧ ∀ (c : Cplx) (w : World), 0 ≤ w.linesWritten →
          (getColorFromClassicMandelbrot cfg c w).1.writer = w.writer
          ∧ (getColorFromClassicMandelbrot cfg c w).1.linesWritten = w.linesWritten) := by
  constructor
  · intro h
    have hl : cfg.maxLinesToWrite > 0 ∨ cfg.maxLinesToWrite = -1 := Or.inr h
    refine ⟨⟨_, mainSetup_ok cfg hc, by rw [if_pos hl]⟩, ?_⟩
    intro c w
    rw [getColorFromClassicMandelbrot_fst, if_pos (Or.inl h)]
    exact ⟨rfl, rfl⟩
  · intro h
    have hl : ¬ (cfg.maxLinesToWrite > 0 ∨ cfg.maxLinesToWrite = -1) := by omega
    refine ⟨⟨_, mainSetup_ok cfg hc, by rw [if_neg hl]; rfl⟩, ?_⟩
    intro c w hw
    have hno : ¬ (cfg.maxLinesToWrite = -1 ∨ w.linesWritten < cfg.maxLinesToWrite) := by omega
    rw [getColorFromClassicMandelbrot_fst, if_neg hno]
    exact ⟨rfl, rfl⟩

/-- C5, amended, for the flags `-method classic -c 20 -n -1` and `-n -2`. -/
theorem C5_cap_minus_one_unlimited_witness :
    ((∃ w0, mainSetup (classicCfg (-1)) false = .ok w0 ∧ w0.writer = [Line.header])
      ∧ ∀ (c : Cplx) (w : World),
          (getColorFromClassicMandelbrot (classicCfg (-1)) c w).1.writer
            = w.writer ++ [Line.record c.re c.im (belongsToSet c)]
          ∧ (getColorFromClassicMandelbrot (classicCfg (-1)) c w).1.linesWritten
            = w.linesWritten + 1)
    ∧ ((∃ w0, mainSetup (classicCfg (-2)) false = .ok w0 ∧ w0.writer = [])
      ∧ ∀ (c : Cplx) (w : World), 0 ≤ w.linesWritten →
          (getColorFromClassicMandelbrot (classicCfg (-2)) c w).1.writer = w.writer
          ∧ (getColorFromClassicMandelbrot (classicCfg (-2)) c w).1.linesWritten
            = w.linesWritten) :=
  ⟨(C5_cap_minus_one_unlimited (classicCfg (-1)) (by decide)).1 rfl,
   (C5_cap_minus_one_unlimited (classicCfg (-2)) (by decide)).2 (by decide)⟩

/-- C6, the claim as stated fails at the pixel `complex(0, 0)` with the cap
`-1`: the record appended carries `(0, 0)`, while the plane coordinate that
`belongsToSet` tests is `(-2, 9/5)`. -/
theorem C6_record_counterexample :
    (getColorFromClassicMandelbrot (classicCfg (-1)) ⟨0, 0⟩ World.init).1.writer
      = [Line.record 0 0 (belongsToSet ⟨0, 0⟩)]
    ∧ reC ⟨0, 0⟩ = -2 ∧ imC ⟨0, 0⟩ = 9 / 5
    ∧ Line.record 0 0 (belongsToSet ⟨0, 0⟩)
      ≠ Line.record (reC ⟨0, 0⟩) (imC ⟨0, 0⟩) (belongsToSet ⟨0, 0⟩) := by
  have h1 : reC ⟨0, 0⟩ = -2 := by rw [reC_eq]; norm_num
  have h2 : imC ⟨0, 0⟩ = 9 / 5 := by rw [imC_eq]; norm_num
  refine ⟨?_, h1, h2, ?_⟩
  · rw [getColorFromClassicMandelbrot_fst]
    rfl
  · rw [h1, h2]
    intro h
    injection h with h _ _
    norm_num at h

/-- C6, amended. A call of `getColorFromClassicMandelbrot` for the input `c`
appends at most one log record, and that record is the triple
`(real(c), imag(c), belongsToSet(c))`: the components of the input itself,
not the plane coordinate that `belongsToSet` tests. -/
theorem C6_record_is_input (cfg : Config) (c : Cplx) (w : World) :
    (getColorFromClassicMandelbrot cfg c w).1.writer
      = if cfg.maxLinesToWrite = -1 ∨ w.linesWritten < cfg.maxLinesToWrite then
          w.writer ++ [Line.record c.re c.im (belongsToSet c)]
        else w.writer := by
  rw [getColorFromClassicMandelbrot_fst]
  split <;> rfl

/-- C7. `Predict` answers `false` on every reply that carries an error, and
answers whether the label is `"1"` on every reply without error that carries
a label; on a reply without error that carries no label, or no prediction,
it panics instead of answering `false`. -/
theorem C7_Predict_outcomes :
    (∀ (svc : Cplx → PredictReply) (c : Cplx) (msg : String),
        (svc c).err = some msg → Predict svc c = .ok false)
    ∧ (∀ (svc : Cplx → PredictReply) (c : Cplx) (label : String),
        svc c = { resp := some { Prediction := some { PredictedLabel := some label } },
                  err := none } →
        Predict svc c = .ok (decide (label = "1")))
    ∧ (∀ c, Predict svcNoLabel c = .error (.panic "nil pointer dereference"))
    ∧ (∀ c, Predict svcNoPrediction c = .error (.panic "nil pointer dereference")) := by
  refine ⟨?_, ?_, fun _ => rfl, fun _ => rfl⟩
  · intro svc c msg h
    unfold Predict
    simp only [h]
  · intro svc c label h
    unfold Predict
    simp only [h]

/-- C8, the claim as stated fails for the classic goroutine of the pixel
`complex(0, 0)` with the cap `-1`: its effects are the verdict, a write to
the Log, the release of the slot, and the write to the Canvas, in this order. -/
theorem C8_release_counterexample :
    ∃ t, classicTask (classicCfg (-1)) ⟨0, 0⟩ worldOneSlot = .ok t
      ∧ t.events =
        [Event.verdict ⟨0, 0⟩ true,
         Event.logWrite (Line.record 0 0 true),
         Event.semRecv,
         Event.canvasSet 0 0 colorBlack]
      ∧ ¬ ∃ b rest, t.events = Event.verdict ⟨0, 0⟩ b :: Event.semRecv :: rest := by
  have hev : (plot ⟨0, 0⟩ (if belongsToSet ⟨0, 0⟩ then colorBlack else colorWhite)
      { (getColorFromClassicMandelbrot (classicCfg (-1)) ⟨0, 0⟩ worldOneSlot).1 with
        sem := worldOneSlot.sem - 1
        events := (getColorFromClassicMandelbrot (classicCfg (-1)) ⟨0, 0⟩ worldOneSlot).1.events
          ++ [Event.semRecv] }).events =
        [Event.verdict ⟨0, 0⟩ true,
         Event.logWrite (Line.record 0 0 true),
         Event.semRecv,
         Event.canvasSet 0 0 colorBlack] := by
    rw [getColorFromClassicMandelbrot_fst, belongsToSet_pixel00]
    simp [plot, classicCfg, worldOneSlot, World.init, goInt]
  refine ⟨_, classicTask_eq _ _ _ (by decide), hev, ?_⟩
  rw [hev]
  rintro ⟨b, rest, h⟩
  simp at h

/-- C8, amended. A goroutine spawned by `plotPixel` that finds a value in the
channel performs these effects in this order. Classic: the verdict, then the
write of its record to the Log when the cap allows one, then the release of
the slot, then the write to the Canvas. ML, when `Predict` answers: the
verdict, then the release of the slot, then the write to the Canvas. -/
theorem C8_release_order (cfg : Config) (c : Cplx) (w : World) (hs : 0 < w.sem) :
    (∃ t, classicTask cfg c w = .ok t
      ∧ t.events = w.events ++ [Event.verdict c (belongsToSet c)]
          ++ (if cfg.maxLinesToWrite = -1 ∨ w.linesWritten < cfg.maxLinesToWrite then
                [Event.logWrite (Line.record c.re c.im (belongsToSet c))]
              else [])
          ++ [Event.semRecv,
              Event.canvasSet (goInt c.re) (goInt c.im)
                (if belongsToSet c then colorBlack else colorWhite)])
    ∧ (∀ b, Predict cfg.mlService c = .ok b →
        ∃ t, mlTask cfg c w = .ok t
          ∧ t.events = w.events ++ [Event.verdict c b, Event.semRecv,
              Event.canvasSet (goInt c.re) (goInt c.im)
                (if b then colorBlack else colorWhite)]) := by
  constructor
  · refine ⟨_, classicTask_eq cfg c w hs, ?_⟩
    rw [getColorFromClassicMandelbrot_fst]
    by_cases hlog : cfg.maxLinesToWrite = -1 ∨ w.linesWritten < cfg.maxLinesToWrite
    · simp [hlog, plot]
    · simp [hlog, plot]
  · intro b hb
    unfold mlTask getColorFromMLMandelbrot
    rw [hb]
    cases b <;>
    simp [bind, Except.bind, pure, Except.pure, semRecv, hs, plot]

/-- C8, amended, for the classic goroutine of the pixel `complex(0, 0)` and
for an ML goroutine whose predictor answers `"1"`. -/
theorem C8_release_order_witness :
    (∃ t, classicTask (classicCfg 0) ⟨0, 0⟩ worldOneSlot = .ok t
      ∧ t.events = worldOneSlot.events ++ [Event.verdict ⟨0, 0⟩ (belongsToSet ⟨0, 0⟩)]
          ++ (if (classicCfg 0).maxLinesToWrite = -1
                ∨ worldOneSlot.linesWritten < (classicCfg 0).maxLinesToWrite then
                [Event.logWrite (Line.record 0 0 (belongsToSet ⟨0, 0⟩))]
              else [])
          ++ [Event.semRecv,
              Event.canvasSet (goInt 0) (goInt 0)
                (if belongsToSet ⟨0, 0⟩ then colorBlack else colorWhite)])
    ∧ (∃ t, mlTask (mlCfg (svcLabel "1")) ⟨0, 0⟩ worldOneSlot = .ok t
          ∧ t.events = worldOneSlot.events ++ [Event.verdict ⟨0, 0⟩ true, Event.semRecv,
              Event.canvasSet (goInt 0) (goInt 0) (if true then colorBlack else colorWhite)]) :=
  ⟨(C8_release_order (classicCfg 0) ⟨0, 0⟩ worldOneSlot (by decide)).1,
   (C8_release_order (mlCfg (svcLabel "1")) ⟨0, 0⟩ worldOneSlot (by decide)).2 true rfl⟩

/-- C9. In every state that an interleaving of the main goroutine and the
spawned goroutines reaches from the entry of `renderImage`, with the channel
made with capacity `concurrencyLevel`, at most `concurrencyLevel` goroutines
hold a scheduling slot, and once `renderImage` has returned none does. -/
theorem C9_admission_bound (cfg : Config) (openErr : Bool) (w0 : World)
    (h0 : mainSetup cfg openErr = .ok w0) (acts : List Action) (s : Sys)
    (hrun : run cfg acts (Sys.start cfg w0) = some s) :
    (capSem cfg : Int) = cfg.concurrencyLevel
    ∧ holding s ≤ capSem cfg
    ∧ (s.mainPc = MainPc.returned →
        holding s = 0 ∧ ∀ t ∈ s.tasks, t.holdsSlot = false) := by
  obtain ⟨hsem, hc⟩ := mainSetup_sem cfg openErr w0 h0
  have hinit : holding (Sys.start cfg w0) + unmatchedSends cfg (Sys.start cfg w0).mainPc
      ≤ (Sys.start cfg w0).world.sem ∧ (Sys.start cfg w0).world.sem ≤ capSem cfg := by
    have h1 : unmatchedSends cfg (Sys.start cfg w0).mainPc = 0 :=
      unmatchedSends_loopHead cfg 0 0
    have h2 : holding (Sys.start cfg w0) = 0 := rfl
    have h3 : (Sys.start cfg w0).world.sem = 0 := hsem
    rw [h1, h2, h3]
    exact ⟨le_refl _, Nat.zero_le _⟩
  obtain ⟨h1, h2⟩ := run_inv cfg acts _ s hrun hinit
  refine ⟨Int.toNat_of_nonneg hc, by omega, ?_⟩
  intro hret
  rw [hret] at h1
  have hcap : unmatchedSends cfg MainPc.returned = capSem cfg := rfl
  have hzero : holding s = 0 := by omega
  refine ⟨hzero, ?_⟩
  intro t ht
  have := List.countP_eq_zero.mp hzero t ht
  simpa using this

/-- C9 for the flags `-method classic -c 20 -n 0`: after the main goroutine
has sent for the first pixel and spawned its goroutine, one goroutine holds a
slot; and in the state in which the schedule of `renderImage_is_schedule`
ends, `renderImage` has returned and no goroutine holds a slot. -/
theorem C9_admission_bound_witness :
    (∃ s, run (classicCfg 0) [Action.main, Action.main] (Sys.start (classicCfg 0) World.init)
        = some s
      ∧ holding s = 1
      ∧ (capSem (classicCfg 0) : Int) = (classicCfg 0).concurrencyLevel
      ∧ holding s ≤ capSem (classicCfg 0)
      ∧ (s.mainPc = MainPc.returned →
          holding s = 0 ∧ ∀ t ∈ s.tasks, t.holdsSlot = false))
    ∧ (∃ acts s, run (classicCfg 0) acts (Sys.start (classicCfg 0) World.init) = some s
      ∧ s.mainPc = MainPc.returned ∧ holding s ≤ capSem (classicCfg 0) ∧ holding s = 0) :=
  ⟨⟨_, rfl, rfl,
      C9_admission_bound (classicCfg 0) false World.init rfl [Action.main, Action.main] _ rfl⟩,
    (renderImage_is_schedule (classicCfg 0) rfl World.init rfl (by decide)).elim
      fun acts h => h.elim fun s hs =>
        ⟨acts, s, hs.1, hs.2.1,
          (C9_admission_bound (classicCfg 0) false World.init rfl acts s hs.1).2.1,
          ((C9_admission_bound (classicCfg 0) false World.init rfl acts s hs.1).2.2 hs.2.1).1⟩⟩

/-- C10. `belongsToSet(c)` is true exactly when some iterate `z_k` with
`1 <= k <= 29` has squared magnitude strictly above 4; the iterate `z_30`
does not enter: when `z_0 .. z_29` stay within 4 the result is false whatever
`z_30` is. For the input mapped to `-2+0i` every iterate from `z_1` on has
squared magnitude exactly 4, and the result is false. -/
theorem C10_belongsToSet_tests_first_29 :
    (∀ c, belongsToSet c = true ↔ ∃ k, 1 ≤ k ∧ k ≤ 29 ∧ 4 < normSq (orbit c k))
    ∧ (∀ c, (∀ k, k ≤ 29 → normSq (orbit c k) ≤ 4) → belongsToSet c = false)
    ∧ planePoint cMinusTwo = ⟨-2, 0⟩
    ∧ (∀ k, 1 ≤ k → normSq (orbit cMinusTwo k) = 4)
    ∧ belongsToSet cMinusTwo = false := by
  have hB : bailoutIteration = 30 := rfl
  refine ⟨belongsToSet_eq_true_iff, ?_, ?_, normSq_orbit_cMinusTwo, ?_⟩
  · intro c h
    rw [belongsToSet_eq_false_iff]
    intro k hk
    exact h k (by omega)
  · show (⟨reC cMinusTwo, imC cMinusTwo⟩ : Cplx) = _
    rw [reC_eq, imC_eq]
    norm_num [cMinusTwo]
  · rw [belongsToSet_eq_false_iff]
    intro k _
    rcases Nat.eq_zero_or_pos k with h0 | h0
    · subst h0
      norm_num [orbit, normSq]
    · rw [normSq_orbit_cMinusTwo k h0]
end Mlbrot
